import Mathlib

/-!
Verification of the time-reversal symmetry contraction layer of
`src/rha_direct_dot.c` ("ha" = hermitian for e1, anti-hermitian for e2).

Modelling conventions.

* Buffers (`double complex *`) are total functions `ℕ → ℤ`: the complex
  floating-point values of the C program are modelled by exact scalars.  No
  kernel in `rha_direct_dot.c` conjugates a value (every `zgemv_` call uses
  `'N'`/`'T'`), so an arbitrary commutative ring is faithful; we fix `ℤ` so
  that every definition is executable and decidable on concrete inputs.
* A C pointer into a buffer is a view `viewAt a off`; writing through an
  advanced pointer is `plugAt`.
* `assert(...)` failure is modelled by kernels returning `none`.
* The helper routines of this repository that are referenced but whose
  source files are not in the tree (`r_direct_dot.c`, `time_rev.c`,
  `np_helper.c`) and the external BLAS routine `zgemv_` are modelled from
  the spec; each such definition carries a `Modelled from the spec:`
  doc comment.
-/

/-- Index part of a `tao` entry: entries are 1-indexed and signed, so the
0-based AO partner index of `p` is `|tao[p]| - 1`. -/
def taoIdx (tao : ℕ → ℤ) (p : ℕ) : ℕ := (tao p).natAbs - 1

/-- Sign part of a `tao` entry. -/
def taoSgn (tao : ℕ → ℤ) (p : ℕ) : ℤ := if tao p < 0 then -1 else 1

/-- View of buffer `a` through the advanced pointer `a + off`. -/
def viewAt (a : ℕ → ℤ) (off : ℕ) : ℕ → ℤ := fun t => a (off + t)

/-- Write-back of an update `w` made through the advanced pointer
`orig + off`: positions below `off` keep their original contents. -/
def plugAt (orig : ℕ → ℤ) (off : ℕ) (w : ℕ → ℤ) : ℕ → ℤ :=
  fun t => if off ≤ t then w (t - off) else orig t

/-- A single `a[p] += x` store. -/
def addAt (v : ℕ → ℤ) (p : ℕ) (x : ℤ) : ℕ → ℤ :=
  fun t => if t = p then v t + x else v t

/-- A doubly nested accumulation loop
`for (i1 = 0; i1 < d1; i1++) for (j1 = 0; j1 < d2; j1++) a[pos i1 j1] += val i1 j1`
in C iteration order. -/
def accumRect (v : ℕ → ℤ) (d1 d2 : ℕ) (pos : ℕ → ℕ → ℕ) (val : ℕ → ℕ → ℤ) :
    ℕ → ℤ :=
  (List.range d1).foldl
    (fun w i1 => (List.range d2).foldl
      (fun w2 j1 => addAt w2 (pos i1 j1) (val i1 j1)) w) v

/-- Modelled from the spec: `NPzset0` (np_helper.c is not in the tree) zero
fills a scratch buffer; local scratch arrays start as the zero buffer. -/
def NPzset0 : ℕ → ℤ := fun _ => 0

/-- Modelled from the spec: the consumed external dense linear-algebra
routine `zgemv_` with `TRANS = 'N'`, column-major `m x n` matrix `A` with
leading dimension `m` (every call site passes `lda = m`):
`y := alpha * A * x + beta * y` on the first `m` entries of `y`. -/
def zgemvN (m n : ℕ) (alpha : ℤ) (A x : ℕ → ℤ) (beta : ℤ) (y : ℕ → ℤ) :
    ℕ → ℤ :=
  fun r => if r < m then
    beta * y r + alpha * ∑ c ∈ Finset.range n, A (c * m + r) * x c
  else y r

/-- Modelled from the spec: `zgemv_` with `TRANS = 'T'`:
`y := alpha * Aᵀ * x + beta * y` on the first `n` entries of `y`. -/
def zgemvT (m n : ℕ) (alpha : ℤ) (A x : ℕ → ℤ) (beta : ℤ) (y : ℕ → ℤ) :
    ℕ → ℤ :=
  fun c => if c < n then
    beta * y c + alpha * ∑ r ∈ Finset.range m, A (c * m + r) * x r
  else y c

/-- The per-component dispatch loop shared by every kernel:
`for (ic = 0; ic < ncomp; ic++) { step; eri += B; vjk += n2; }`,
with the pointer advances carried as explicit offsets. -/
def compLoop (B n2 : ℕ) (step : ℕ → ℕ → (ℕ → ℤ) → (ℕ → ℤ)) :
    ℕ → ℕ → ℕ → (ℕ → ℤ) → (ℕ → ℤ)
  | 0, _, _, v => v
  | m + 1, eo, vo, v => compLoop B n2 step m (eo + B) (vo + n2) (step eo vo v)

/-- Position of entry `(i1,j1,k1,l1)` inside one `di*dj*dk*dl` integral
component block (first index fastest, as produced by the integral library). -/
def eriIdx (di dj dk : ℕ) (i1 j1 k1 l1 : ℕ) : ℕ :=
  i1 + di * (j1 + dj * (k1 + dk * l1))

/-- Modelled from the spec: plain copy of the density block over the AO
rectangle `[istart,iend) x [jstart,jend)`, row `i1` with row stride
`jend - jstart`. -/
def dmblock (dm : ℕ → ℤ) (istart iend jstart jend nao : ℕ) : ℕ → ℤ :=
  fun c =>
    dm ((istart + c / (jend - jstart)) * nao + (jstart + c % (jend - jstart)))

/- ----------------------------------------------------------------- -/
/- `adbak_blockT` is in the tree (src/rha_direct_dot.c, lines 49-61). -/

/-- Embedding of `static void adbak_blockT` from `rha_direct_dot.c`:
`a[i*n + j] += blk[(j - jstart)*(iend - istart) + (i - istart)]` for every
`istart <= i < iend`, `jstart <= j < jend`, in C loop order. -/
def adbak_blockT (a blk : ℕ → ℤ) (n istart iend jstart jend : ℕ) : ℕ → ℤ :=
  accumRect a (iend - istart) (jend - jstart)
    (fun i1 j1 => (istart + i1) * n + (jstart + j1))
    (fun i1 j1 => blk (j1 * (iend - istart) + i1))

/- ------------------------------------------------------------------ -/
/- Time-reversal reduction layer (time_rev.c is not in the tree).      -/

/-- Modelled from the spec: `CVHFtimerev_ijminus` combines the density
block over `[istart,iend) x [jstart,jend)` with its time-reversal partner
under the `tao` map using a subtraction (the partner of entry `(i,j)` is
the signed `tao`-transposed entry; the spec leaves the exact sign and
conjugation convention open, and this development fixes the conj-free
convention consistently). -/
def CVHFtimerev_ijminus (dm : ℕ → ℤ) (tao : ℕ → ℤ)
    (istart iend jstart jend nao : ℕ) : ℕ → ℤ :=
  fun c =>
    dm ((istart + c / (jend - jstart)) * nao + (jstart + c % (jend - jstart)))
    - taoSgn tao (istart + c / (jend - jstart))
      * taoSgn tao (jstart + c % (jend - jstart))
      * dm (taoIdx tao (jstart + c % (jend - jstart)) * nao
            + taoIdx tao (istart + c / (jend - jstart)))

/-- Modelled from the spec: straightforward copy of the density block under
the `tao` permutation with sign bookkeeping. -/
def CVHFtimerev_block (dm : ℕ → ℤ) (tao : ℕ → ℤ)
    (istart iend jstart jend nao : ℕ) : ℕ → ℤ :=
  fun c =>
    taoSgn tao (istart + c / (jend - jstart))
    * taoSgn tao (jstart + c % (jend - jstart))
    * dm (taoIdx tao (istart + c / (jend - jstart)) * nao
          + taoIdx tao (jstart + c % (jend - jstart)))

/-- Modelled from the spec: transposed copy of the density block under the
`tao` permutation with sign bookkeeping. -/
def CVHFtimerev_blockT (dm : ℕ → ℤ) (tao : ℕ → ℤ)
    (istart iend jstart jend nao : ℕ) : ℕ → ℤ :=
  fun c =>
    taoSgn tao (istart + c / (jend - jstart))
    * taoSgn tao (jstart + c % (jend - jstart))
    * dm (taoIdx tao (jstart + c % (jend - jstart)) * nao
          + taoIdx tao (istart + c / (jend - jstart)))

/-- Modelled from the spec: copy of the density block with the `tao` map
applied to the first index only. -/
def CVHFtimerev_i (dm : ℕ → ℤ) (tao : ℕ → ℤ)
    (istart iend jstart jend nao : ℕ) : ℕ → ℤ :=
  fun c =>
    taoSgn tao (istart + c / (jend - jstart))
    * dm (taoIdx tao (istart + c / (jend - jstart)) * nao
          + (jstart + c % (jend - jstart)))

/-- Modelled from the spec: transposed copy of the density block with the
`tao` map applied to the first index only. -/
def CVHFtimerev_iT (dm : ℕ → ℤ) (tao : ℕ → ℤ)
    (istart iend jstart jend nao : ℕ) : ℕ → ℤ :=
  fun c =>
    taoSgn tao (istart + c / (jend - jstart))
    * dm ((jstart + c % (jend - jstart)) * nao
          + taoIdx tao (istart + c / (jend - jstart)))

/-- Modelled from the spec: copy of the density block with the `tao` map
applied to the second index only. -/
def CVHFtimerev_j (dm : ℕ → ℤ) (tao : ℕ → ℤ)
    (istart iend jstart jend nao : ℕ) : ℕ → ℤ :=
  fun c =>
    taoSgn tao (jstart + c % (jend - jstart))
    * dm ((istart + c / (jend - jstart)) * nao
          + taoIdx tao (jstart + c % (jend - jstart)))

/-- Modelled from the spec: transposed copy of the density block with the
`tao` map applied to the second index only. -/
def CVHFtimerev_jT (dm : ℕ → ℤ) (tao : ℕ → ℤ)
    (istart iend jstart jend nao : ℕ) : ℕ → ℤ :=
  fun c =>
    taoSgn tao (jstart + c % (jend - jstart))
    * dm (taoIdx tao (jstart + c % (jend - jstart)) * nao
          + (istart + c / (jend - jstart)))

/-- Modelled from the spec: back-distribution of a contracted block into the
original (non-time-reversed) output block, accumulating, with the `tao`
map and sign applied to the second index; `T` variants read the block
transposed. -/
def CVHFtimerev_adbak_jT (blk vk : ℕ → ℤ) (tao : ℕ → ℤ)
    (istart iend jstart jend nao : ℕ) : ℕ → ℤ :=
  accumRect vk (iend - istart) (jend - jstart)
    (fun i1 j1 => (istart + i1) * nao + taoIdx tao (jstart + j1))
    (fun i1 j1 => taoSgn tao (jstart + j1) * blk (j1 * (iend - istart) + i1))

/-- Modelled from the spec: accumulating back-distribution under `tao` on
the second index, block read in row order. -/
def CVHFtimerev_adbak_j (blk vk : ℕ → ℤ) (tao : ℕ → ℤ)
    (istart iend jstart jend nao : ℕ) : ℕ → ℤ :=
  accumRect vk (iend - istart) (jend - jstart)
    (fun i1 j1 => (istart + i1) * nao + taoIdx tao (jstart + j1))
    (fun i1 j1 => taoSgn tao (jstart + j1) * blk (i1 * (jend - jstart) + j1))

/-- Modelled from the spec: accumulating back-distribution under `tao` on
the first index, block read in row order. -/
def CVHFtimerev_adbak_i (blk vk : ℕ → ℤ) (tao : ℕ → ℤ)
    (istart iend jstart jend nao : ℕ) : ℕ → ℤ :=
  accumRect vk (iend - istart) (jend - jstart)
    (fun i1 j1 => taoIdx tao (istart + i1) * nao + (jstart + j1))
    (fun i1 j1 => taoSgn tao (istart + i1) * blk (i1 * (jend - jstart) + j1))

/-- Modelled from the spec: accumulating back-distribution under `tao` on
the first index, block read transposed. -/
def CVHFtimerev_adbak_iT (blk vk : ℕ → ℤ) (tao : ℕ → ℤ)
    (istart iend jstart jend nao : ℕ) : ℕ → ℤ :=
  accumRect vk (iend - istart) (jend - jstart)
    (fun i1 j1 => taoIdx tao (istart + i1) * nao + (jstart + j1))
    (fun i1 j1 => taoSgn tao (istart + i1) * blk (j1 * (iend - istart) + i1))

/-- Modelled from the spec: accumulating back-distribution under `tao` on
both indices, block read in row order. -/
def CVHFtimerev_adbak_block (blk vk : ℕ → ℤ) (tao : ℕ → ℤ)
    (istart iend jstart jend nao : ℕ) : ℕ → ℤ :=
  accumRect vk (iend - istart) (jend - jstart)
    (fun i1 j1 => taoIdx tao (istart + i1) * nao + taoIdx tao (jstart + j1))
    (fun i1 j1 => taoSgn tao (istart + i1) * taoSgn tao (jstart + j1)
      * blk (i1 * (jend - jstart) + j1))

/-- Modelled from the spec: accumulating back-distribution under `tao` on
both indices, block read transposed. -/
def CVHFtimerev_adbak_blockT (blk vk : ℕ → ℤ) (tao : ℕ → ℤ)
    (istart iend jstart jend nao : ℕ) : ℕ → ℤ :=
  accumRect vk (iend - istart) (jend - jstart)
    (fun i1 j1 => taoIdx tao (istart + i1) * nao + taoIdx tao (jstart + j1))
    (fun i1 j1 => taoSgn tao (istart + i1) * taoSgn tao (jstart + j1)
      * blk (j1 * (iend - istart) + i1))

/- ------------------------------------------------------------------- -/
/- No-symmetry kernels (r_direct_dot.c is not in the tree).             -/

/-- One component step of an `lk_s1ij`-shaped J build: zero the `dij`
scratch, `svj := eri_block * sdm` by one `dij x dkl` matrix-vector product,
then back-distribute `svj` transposed into rows `[istart,iend)` and columns
`[jstart,jend)` through the advanced output pointer. -/
def lk_step (eri sdm : ℕ → ℤ) (dij dkl nao istart iend jstart jend : ℕ)
    (eo vo : ℕ) (vj : ℕ → ℤ) : ℕ → ℤ :=
  plugAt vj vo
    (adbak_blockT (viewAt vj vo)
      (zgemvN dij dkl 1 (viewAt eri eo) sdm 0 NPzset0)
      nao istart iend jstart jend)

/-- Modelled from the spec: the no-symmetry J-build kernel
`CVHFrs1_lk_s1ij` accumulates `vj[i,j] += sum_{k,l} eri(i,j,k,l) * dm[l,k]`
per component. -/
def CVHFrs1_lk_s1ij (eri dm vj : ℕ → ℤ) (nao ncomp : ℕ) (shls ao_loc : ℕ → ℕ)
    (tao : ℕ → ℤ) (dm_cond : ℕ → ℤ) (nbas : ℕ) (dm_atleast : ℤ) : ℕ → ℤ :=
  let istart := ao_loc (shls 0); let iend := ao_loc (shls 0 + 1)
  let jstart := ao_loc (shls 1); let jend := ao_loc (shls 1 + 1)
  let kstart := ao_loc (shls 2); let kend := ao_loc (shls 2 + 1)
  let lstart := ao_loc (shls 3); let lend := ao_loc (shls 3 + 1)
  let di := iend - istart; let dj := jend - jstart
  let dk := kend - kstart; let dl := lend - lstart
  compLoop ((di * dj) * (dk * dl)) (nao * nao)
    (lk_step eri (dmblock dm lstart lend kstart kend nao)
      (di * dj) (dk * dl) nao istart iend jstart jend)
    ncomp 0 0 vj

/-- One component step of a `ji_s1kl`-shaped J build, accumulating
`vj[k,l] += sum_{i,j} eri(i,j,k,l) * wdm(i,j)` into the `(k,l)` block. -/
def ji_step (eri : ℕ → ℤ) (wdm : ℕ → ℕ → ℤ) (di dj dk dl nao kstart lstart : ℕ)
    (eo vo : ℕ) (vj : ℕ → ℤ) : ℕ → ℤ :=
  accumRect vj dk dl
    (fun k1 l1 => vo + ((kstart + k1) * nao + (lstart + l1)))
    (fun k1 l1 => ∑ i1 ∈ Finset.range di, ∑ j1 ∈ Finset.range dj,
      eri (eo + eriIdx di dj dk i1 j1 k1 l1) * wdm i1 j1)

/-- Modelled from the spec: the no-symmetry J-build kernel
`CVHFrs1_ji_s1kl` accumulates `vj[k,l] += sum_{i,j} eri(i,j,k,l) * dm[j,i]`
per component. -/
def CVHFrs1_ji_s1kl (eri dm vj : ℕ → ℤ) (nao ncomp : ℕ) (shls ao_loc : ℕ → ℕ)
    (tao : ℕ → ℤ) (dm_cond : ℕ → ℤ) (nbas : ℕ) (dm_atleast : ℤ) : ℕ → ℤ :=
  let istart := ao_loc (shls 0); let iend := ao_loc (shls 0 + 1)
  let jstart := ao_loc (shls 1); let jend := ao_loc (shls 1 + 1)
  let kstart := ao_loc (shls 2); let kend := ao_loc (shls 2 + 1)
  let lstart := ao_loc (shls 3); let lend := ao_loc (shls 3 + 1)
  let di := iend - istart; let dj := jend - jstart
  let dk := kend - kstart; let dl := lend - lstart
  compLoop ((di * dj) * (dk * dl)) (nao * nao)
    (ji_step eri (fun i1 j1 => dm ((jstart + j1) * nao + (istart + i1)))
      di dj dk dl nao kstart lstart)
    ncomp 0 0 vj

/-- Modelled from the spec: the 2-fold `ij`-symmetric J-build kernel
`CVHFrs2ij_ji_s1kl`: for an off-diagonal bra shell pair it accumulates both
the `ji` and the `ij` density entries; a diagonal shell pair (`i==j`)
contributes only once. -/
def CVHFrs2ij_ji_s1kl (eri dm vj : ℕ → ℤ) (nao ncomp : ℕ)
    (shls ao_loc : ℕ → ℕ) (tao : ℕ → ℤ) (dm_cond : ℕ → ℤ) (nbas : ℕ)
    (dm_atleast : ℤ) : ℕ → ℤ :=
  let istart := ao_loc (shls 0); let iend := ao_loc (shls 0 + 1)
  let jstart := ao_loc (shls 1); let jend := ao_loc (shls 1 + 1)
  let kstart := ao_loc (shls 2); let kend := ao_loc (shls 2 + 1)
  let lstart := ao_loc (shls 3); let lend := ao_loc (shls 3 + 1)
  let di := iend - istart; let dj := jend - jstart
  let dk := kend - kstart; let dl := lend - lstart
  compLoop ((di * dj) * (dk * dl)) (nao * nao)
    (ji_step eri
      (fun i1 j1 => dm ((jstart + j1) * nao + (istart + i1))
        + if shls 0 = shls 1 then 0
          else dm ((istart + i1) * nao + (jstart + j1)))
      di dj dk dl nao kstart lstart)
    ncomp 0 0 vj

/-- One component step of a `jk_s1il`-shaped K build, accumulating
`vk[i,l] += sum_{j,k} eri(i,j,k,l) * dm[j,k]` into the `(i,l)` block. -/
def jk_rs_step (eri dm : ℕ → ℤ) (di dj dk dl nao istart jstart kstart lstart : ℕ)
    (eo vo : ℕ) (vk : ℕ → ℤ) : ℕ → ℤ :=
  accumRect vk di dl
    (fun i1 l1 => vo + ((istart + i1) * nao + (lstart + l1)))
    (fun i1 l1 => ∑ j1 ∈ Finset.range dj, ∑ k1 ∈ Finset.range dk,
      eri (eo + eriIdx di dj dk i1 j1 k1 l1)
        * dm ((jstart + j1) * nao + (kstart + k1)))

/-- Modelled from the spec: the no-symmetry K-build kernel
`CVHFrs1_jk_s1il` accumulates `vk[i,l] += sum_{j,k} eri(i,j,k,l) * dm[j,k]`
per component. -/
def CVHFrs1_jk_s1il (eri dm vk : ℕ → ℤ) (nao ncomp : ℕ) (shls ao_loc : ℕ → ℕ)
    (tao : ℕ → ℤ) (dm_cond : ℕ → ℤ) (nbas : ℕ) (dm_atleast : ℤ) : ℕ → ℤ :=
  let istart := ao_loc (shls 0); let iend := ao_loc (shls 0 + 1)
  let jstart := ao_loc (shls 1); let jend := ao_loc (shls 1 + 1)
  let kstart := ao_loc (shls 2); let kend := ao_loc (shls 2 + 1)
  let lstart := ao_loc (shls 3); let lend := ao_loc (shls 3 + 1)
  let di := iend - istart; let dj := jend - jstart
  let dk := kend - kstart; let dl := lend - lstart
  compLoop ((di * dj) * (dk * dl)) (nao * nao)
    (jk_rs_step eri dm di dj dk dl nao istart jstart kstart lstart)
    ncomp 0 0 vk

/-- One component step of a `li_s1kj`-shaped K build, accumulating
`vk[k,j] += sum_{i,l} eri(i,j,k,l) * dm[l,i]` into the `(k,j)` block. -/
def li_rs_step (eri dm : ℕ → ℤ) (di dj dk dl nao istart jstart kstart lstart : ℕ)
    (eo vo : ℕ) (vk : ℕ → ℤ) : ℕ → ℤ :=
  accumRect vk dk dj
    (fun k1 j1 => vo + ((kstart + k1) * nao + (jstart + j1)))
    (fun k1 j1 => ∑ i1 ∈ Finset.range di, ∑ l1 ∈ Finset.range dl,
      eri (eo + eriIdx di dj dk i1 j1 k1 l1)
        * dm ((lstart + l1) * nao + (istart + i1)))

/-- Modelled from the spec: the no-symmetry K-build kernel
`CVHFrs1_li_s1kj` accumulates `vk[k,j] += sum_{i,l} eri(i,j,k,l) * dm[l,i]`
per component. -/
def CVHFrs1_li_s1kj (eri dm vk : ℕ → ℤ) (nao ncomp : ℕ) (shls ao_loc : ℕ → ℕ)
    (tao : ℕ → ℤ) (dm_cond : ℕ → ℤ) (nbas : ℕ) (dm_atleast : ℤ) : ℕ → ℤ :=
  let istart := ao_loc (shls 0); let iend := ao_loc (shls 0 + 1)
  let jstart := ao_loc (shls 1); let jend := ao_loc (shls 1 + 1)
  let kstart := ao_loc (shls 2); let kend := ao_loc (shls 2 + 1)
  let lstart := ao_loc (shls 3); let lend := ao_loc (shls 3 + 1)
  let di := iend - istart; let dj := jend - jstart
  let dk := kend - kstart; let dl := lend - lstart
  compLoop ((di * dj) * (dk * dl)) (nao * nao)
    (li_rs_step eri dm di dj dk dl nao istart jstart kstart lstart)
    ncomp 0 0 vk

/-- Modelled from the spec: the 2-fold `ij`-symmetric J-build kernel
`CVHFrs2ij_lk_s2ij`: with `s2ij` output storage only the canonical
`i >= j` representative block of `vj` is kept, and the quadruplet writes
exactly that block, so the accumulation coincides with the no-symmetry
`lk_s1ij` build on the representative block. -/
def CVHFrs2ij_lk_s2ij (eri dm vj : ℕ → ℤ) (nao ncomp : ℕ)
    (shls ao_loc : ℕ → ℕ) (tao : ℕ → ℤ) (dm_cond : ℕ → ℤ) (nbas : ℕ)
    (dm_atleast : ℤ) : ℕ → ℤ :=
  let istart := ao_loc (shls 0); let iend := ao_loc (shls 0 + 1)
  let jstart := ao_loc (shls 1); let jend := ao_loc (shls 1 + 1)
  let kstart := ao_loc (shls 2); let kend := ao_loc (shls 2 + 1)
  let lstart := ao_loc (shls 3); let lend := ao_loc (shls 3 + 1)
  let di := iend - istart; let dj := jend - jstart
  let dk := kend - kstart; let dl := lend - lstart
  compLoop ((di * dj) * (dk * dl)) (nao * nao)
    (lk_step eri (dmblock dm lstart lend kstart kend nao)
      (di * dj) (dk * dl) nao istart iend jstart jend)
    ncomp 0 0 vj

/-- One component step of the `s2ij` K build `jk_s1il`: the no-symmetry
`jk` accumulation plus, for an off-diagonal bra shell pair, the
bra-exchanged contribution `vk[j,l] += sum_{i,k} eri(i,j,k,l) * dm[i,k]`. -/
def jk_rs2ij_step (eri dm : ℕ → ℤ) (offdiag : Bool)
    (di dj dk dl nao istart jstart kstart lstart : ℕ)
    (eo vo : ℕ) (vk : ℕ → ℤ) : ℕ → ℤ :=
  let v1 := jk_rs_step eri dm di dj dk dl nao istart jstart kstart lstart
    eo vo vk
  if offdiag then
    accumRect v1 dj dl
      (fun j1 l1 => vo + ((jstart + j1) * nao + (lstart + l1)))
      (fun j1 l1 => ∑ i1 ∈ Finset.range di, ∑ k1 ∈ Finset.range dk,
        eri (eo + eriIdx di dj dk i1 j1 k1 l1)
          * dm ((istart + i1) * nao + (kstart + k1)))
  else v1

/-- Modelled from the spec: the 2-fold `ij`-symmetric K-build kernel
`CVHFrs2ij_jk_s1il`: the no-symmetry `jk_s1il` accumulation, plus the
bra-exchanged `(j,i)` contribution for an off-diagonal bra shell pair; a
diagonal bra pair (`i==j`) contributes only once. -/
def CVHFrs2ij_jk_s1il (eri dm vk : ℕ → ℤ) (nao ncomp : ℕ)
    (shls ao_loc : ℕ → ℕ) (tao : ℕ → ℤ) (dm_cond : ℕ → ℤ) (nbas : ℕ)
    (dm_atleast : ℤ) : ℕ → ℤ :=
  let istart := ao_loc (shls 0); let iend := ao_loc (shls 0 + 1)
  let jstart := ao_loc (shls 1); let jend := ao_loc (shls 1 + 1)
  let kstart := ao_loc (shls 2); let kend := ao_loc (shls 2 + 1)
  let lstart := ao_loc (shls 3); let lend := ao_loc (shls 3 + 1)
  let di := iend - istart; let dj := jend - jstart
  let dk := kend - kstart; let dl := lend - lstart
  compLoop ((di * dj) * (dk * dl)) (nao * nao)
    (jk_rs2ij_step eri dm (if shls 0 = shls 1 then false else true)
      di dj dk dl nao istart jstart kstart lstart)
    ncomp 0 0 vk

/-- One component step of the `s2ij` K build `li_s1kj`: the no-symmetry
`li` accumulation plus, for an off-diagonal bra shell pair, the
bra-exchanged contribution `vk[k,i] += sum_{j,l} eri(i,j,k,l) * dm[l,j]`. -/
def li_rs2ij_step (eri dm : ℕ → ℤ) (offdiag : Bool)
    (di dj dk dl nao istart jstart kstart lstart : ℕ)
    (eo vo : ℕ) (vk : ℕ → ℤ) : ℕ → ℤ :=
  let v1 := li_rs_step eri dm di dj dk dl nao istart jstart kstart lstart
    eo vo vk
  if offdiag then
    accumRect v1 dk di
      (fun k1 i1 => vo + ((kstart + k1) * nao + (istart + i1)))
      (fun k1 i1 => ∑ j1 ∈ Finset.range dj, ∑ l1 ∈ Finset.range dl,
        eri (eo + eriIdx di dj dk i1 j1 k1 l1)
          * dm ((lstart + l1) * nao + (jstart + j1)))
  else v1

/-- Modelled from the spec: the 2-fold `ij`-symmetric K-build kernel
`CVHFrs2ij_li_s1kj`: the no-symmetry `li_s1kj` accumulation, plus the
bra-exchanged `(j,i)` contribution for an off-diagonal bra shell pair; a
diagonal bra pair (`i==j`) contributes only once. -/
def CVHFrs2ij_li_s1kj (eri dm vk : ℕ → ℤ) (nao ncomp : ℕ)
    (shls ao_loc : ℕ → ℕ) (tao : ℕ → ℤ) (dm_cond : ℕ → ℤ) (nbas : ℕ)
    (dm_atleast : ℤ) : ℕ → ℤ :=
  let istart := ao_loc (shls 0); let iend := ao_loc (shls 0 + 1)
  let jstart := ao_loc (shls 1); let jend := ao_loc (shls 1 + 1)
  let kstart := ao_loc (shls 2); let kend := ao_loc (shls 2 + 1)
  let lstart := ao_loc (shls 3); let lend := ao_loc (shls 3 + 1)
  let di := iend - istart; let dj := jend - jstart
  let dk := kend - kstart; let dl := lend - lstart
  compLoop ((di * dj) * (dk * dl)) (nao * nao)
    (li_rs2ij_step eri dm (if shls 0 = shls 1 then false else true)
      di dj dk dl nao istart jstart kstart lstart)
    ncomp 0 0 vk

/- ------------------------------------------------------------ -/
/- The kernels of src/rha_direct_dot.c.                          -/

/-- Embedding of `CVHFrha1_ji_s1kl` (rha_direct_dot.c, lines 62-69):
plain delegation to the no-symmetry kernel. -/
def CVHFrha1_ji_s1kl (eri dm vj : ℕ → ℤ) (nao ncomp : ℕ) (shls ao_loc : ℕ → ℕ)
    (tao : ℕ → ℤ) (dm_cond : ℕ → ℤ) (nbas : ℕ) (dm_atleast : ℤ) : ℕ → ℤ :=
  CVHFrs1_ji_s1kl eri dm vj nao ncomp shls ao_loc tao dm_cond nbas dm_atleast

/-- Embedding of `CVHFrha1_lk_s1ij` (lines 71-78): plain delegation. -/
def CVHFrha1_lk_s1ij (eri dm vj : ℕ → ℤ) (nao ncomp : ℕ) (shls ao_loc : ℕ → ℕ)
    (tao : ℕ → ℤ) (dm_cond : ℕ → ℤ) (nbas : ℕ) (dm_atleast : ℤ) : ℕ → ℤ :=
  CVHFrs1_lk_s1ij eri dm vj nao ncomp shls ao_loc tao dm_cond nbas dm_atleast

/-- Embedding of `CVHFrha1_jk_s1il` (lines 80-87): plain delegation. -/
def CVHFrha1_jk_s1il (eri dm vk : ℕ → ℤ) (nao ncomp : ℕ) (shls ao_loc : ℕ → ℕ)
    (tao : ℕ → ℤ) (dm_cond : ℕ → ℤ) (nbas : ℕ) (dm_atleast : ℤ) : ℕ → ℤ :=
  CVHFrs1_jk_s1il eri dm vk nao ncomp shls ao_loc tao dm_cond nbas dm_atleast

/-- Embedding of `CVHFrha1_li_s1kj` (lines 88-95): plain delegation. -/
def CVHFrha1_li_s1kj (eri dm vk : ℕ → ℤ) (nao ncomp : ℕ) (shls ao_loc : ℕ → ℕ)
    (tao : ℕ → ℤ) (dm_cond : ℕ → ℤ) (nbas : ℕ) (dm_atleast : ℤ) : ℕ → ℤ :=
  CVHFrs1_li_s1kj eri dm vk nao ncomp shls ao_loc tao dm_cond nbas dm_atleast

/-- Embedding of `CVHFrha2ij_ji_s1kl` (lines 97-104): plain delegation to
the `s2ij`-symmetric kernel. -/
def CVHFrha2ij_ji_s1kl (eri dm vj : ℕ → ℤ) (nao ncomp : ℕ)
    (shls ao_loc : ℕ → ℕ) (tao : ℕ → ℤ) (dm_cond : ℕ → ℤ) (nbas : ℕ)
    (dm_atleast : ℤ) : ℕ → ℤ :=
  CVHFrs2ij_ji_s1kl eri dm vj nao ncomp shls ao_loc tao dm_cond nbas
    dm_atleast

/-- Embedding of `CVHFrha2ij_lk_s2ij` (lines 105-112): plain delegation. -/
def CVHFrha2ij_lk_s2ij (eri dm vj : ℕ → ℤ) (nao ncomp : ℕ)
    (shls ao_loc : ℕ → ℕ) (tao : ℕ → ℤ) (dm_cond : ℕ → ℤ) (nbas : ℕ)
    (dm_atleast : ℤ) : ℕ → ℤ :=
  CVHFrs2ij_lk_s2ij eri dm vj nao ncomp shls ao_loc tao dm_cond nbas
    dm_atleast

/-- Embedding of `CVHFrha2ij_jk_s1il` (lines 114-121): plain delegation. -/
def CVHFrha2ij_jk_s1il (eri dm vk : ℕ → ℤ) (nao ncomp : ℕ)
    (shls ao_loc : ℕ → ℕ) (tao : ℕ → ℤ) (dm_cond : ℕ → ℤ) (nbas : ℕ)
    (dm_atleast : ℤ) : ℕ → ℤ :=
  CVHFrs2ij_jk_s1il eri dm vk nao ncomp shls ao_loc tao dm_cond nbas
    dm_atleast

/-- Embedding of `CVHFrha2ij_li_s1kj` (lines 122-129): plain delegation. -/
def CVHFrha2ij_li_s1kj (eri dm vk : ℕ → ℤ) (nao ncomp : ℕ)
    (shls ao_loc : ℕ → ℕ) (tao : ℕ → ℤ) (dm_cond : ℕ → ℤ) (nbas : ℕ)
    (dm_atleast : ℤ) : ℕ → ℤ :=
  CVHFrs2ij_li_s1kj eri dm vk nao ncomp shls ao_loc tao dm_cond nbas
    dm_atleast

/-- Embedding of `CVHFrha2kl_ji_s2kl` (lines 131-139): assert
`shls[2] >= shls[3]`, then delegate to `CVHFrs1_ji_s1kl`. -/
def CVHFrha2kl_ji_s2kl (eri dm vj : ℕ → ℤ) (nao ncomp : ℕ)
    (shls ao_loc : ℕ → ℕ) (tao : ℕ → ℤ) (dm_cond : ℕ → ℤ) (nbas : ℕ)
    (dm_atleast : ℤ) : Option (ℕ → ℤ) :=
  if shls 3 ≤ shls 2 then
    some (CVHFrs1_ji_s1kl eri dm vj nao ncomp shls ao_loc tao
      dm_cond nbas dm_atleast)
  else none

/-- Embedding of `CVHFrha2kl_lk_s1ij` (lines 140-171): assert
`shls[2] >= shls[3]`; for `shls[2] == shls[3]` delegate to
`CVHFrs1_lk_s1ij`; otherwise contract the `ijminus` time-reversal density
combination over the `(l,k)` ranges against each integral component by one
`dij x dkl` matrix-vector product and back-distribute transposed into the
`(i,j)` block of `vj`. -/
def CVHFrha2kl_lk_s1ij (eri dm vj : ℕ → ℤ) (nao ncomp : ℕ)
    (shls ao_loc : ℕ → ℕ) (tao : ℕ → ℤ) (dm_cond : ℕ → ℤ) (nbas : ℕ)
    (dm_atleast : ℤ) : Option (ℕ → ℤ) :=
  if shls 3 ≤ shls 2 then
    if shls 2 = shls 3 then
      some (CVHFrs1_lk_s1ij eri dm vj nao ncomp shls ao_loc tao
        dm_cond nbas dm_atleast)
    else
      let istart := ao_loc (shls 0); let iend := ao_loc (shls 0 + 1)
      let jstart := ao_loc (shls 1); let jend := ao_loc (shls 1 + 1)
      let kstart := ao_loc (shls 2); let kend := ao_loc (shls 2 + 1)
      let lstart := ao_loc (shls 3); let lend := ao_loc (shls 3 + 1)
      let di := iend - istart; let dj := jend - jstart
      let dk := kend - kstart; let dl := lend - lstart
      some (compLoop ((di * dj) * (dk * dl)) (nao * nao)
        (lk_step eri (CVHFtimerev_ijminus dm tao lstart lend kstart kend nao)
          (di * dj) (dk * dl) nao istart iend jstart jend)
        ncomp 0 0 vj)
  else none

/-- One component step of the extra time-reversal term of
`CVHFrha2kl_jk_s1il`: `svk := -1 * p0213_block * sdm` and back-distribute
through `CVHFtimerev_adbak_jT` into the `(i,k)` block. -/
def jk_extra_step (eri sdm : ℕ → ℤ) (tao : ℕ → ℤ)
    (dik djl nao istart iend kstart kend : ℕ) (eo vo : ℕ)
    (vk : ℕ → ℤ) : ℕ → ℤ :=
  plugAt vk vo
    (CVHFtimerev_adbak_jT
      (zgemvN dik djl (-1) (viewAt eri eo) sdm 1 NPzset0)
      (viewAt vk vo) tao istart iend kstart kend nao)

/-- Embedding of `CVHFrha2kl_jk_s1il` (lines 173-208): assert
`shls[2] >= shls[3]`; always run `CVHFrs1_jk_s1il`; for
`shls[2] > shls[3]` add the time-reversal term read from the 0213-permuted
half of the integral buffer (`p0213 = eri + dik*djl*ncomp`). -/
def CVHFrha2kl_jk_s1il (eri dm vk : ℕ → ℤ) (nao ncomp : ℕ)
    (shls ao_loc : ℕ → ℕ) (tao : ℕ → ℤ) (dm_cond : ℕ → ℤ) (nbas : ℕ)
    (dm_atleast : ℤ) : Option (ℕ → ℤ) :=
  if shls 3 ≤ shls 2 then
    let vk1 := CVHFrs1_jk_s1il eri dm vk nao ncomp shls ao_loc tao
      dm_cond nbas dm_atleast
    if shls 2 = shls 3 then some vk1
    else
      let istart := ao_loc (shls 0); let iend := ao_loc (shls 0 + 1)
      let jstart := ao_loc (shls 1); let jend := ao_loc (shls 1 + 1)
      let kstart := ao_loc (shls 2); let kend := ao_loc (shls 2 + 1)
      let lstart := ao_loc (shls 3); let lend := ao_loc (shls 3 + 1)
      let di := iend - istart; let dj := jend - jstart
      let dk := kend - kstart; let dl := lend - lstart
      some (compLoop ((di * dk) * (dj * dl)) (nao * nao)
        (jk_extra_step eri (CVHFtimerev_jT dm tao jstart jend lstart lend nao)
          tao (di * dk) (dj * dl) nao istart iend kstart kend)
        ncomp ((di * dk) * (dj * dl) * ncomp) 0 vk1)
  else none

/-- One component step of the extra time-reversal term of
`CVHFrha2kl_li_s1kj`: `svk := -1 * p0213_blockᵀ * sdm` and back-distribute
through `CVHFtimerev_adbak_i` into the `(l,j)` block. -/
def li_extra_step (eri sdm : ℕ → ℤ) (tao : ℕ → ℤ)
    (dik djl nao lstart lend jstart jend : ℕ) (eo vo : ℕ)
    (vk : ℕ → ℤ) : ℕ → ℤ :=
  plugAt vk vo
    (CVHFtimerev_adbak_i
      (zgemvT dik djl (-1) (viewAt eri eo) sdm 1 NPzset0)
      (viewAt vk vo) tao lstart lend jstart jend nao)

/-- Embedding of `CVHFrha2kl_li_s1kj` (lines 209-244): assert
`shls[2] >= shls[3]`; always run `CVHFrs1_li_s1kj`; for
`shls[2] > shls[3]` add the time-reversal term read from the 0213-permuted
half of the integral buffer. -/
def CVHFrha2kl_li_s1kj (eri dm vk : ℕ → ℤ) (nao ncomp : ℕ)
    (shls ao_loc : ℕ → ℕ) (tao : ℕ → ℤ) (dm_cond : ℕ → ℤ) (nbas : ℕ)
    (dm_atleast : ℤ) : Option (ℕ → ℤ) :=
  if shls 3 ≤ shls 2 then
    let vk1 := CVHFrs1_li_s1kj eri dm vk nao ncomp shls ao_loc tao
      dm_cond nbas dm_atleast
    if shls 2 = shls 3 then some vk1
    else
      let istart := ao_loc (shls 0); let iend := ao_loc (shls 0 + 1)
      let jstart := ao_loc (shls 1); let jend := ao_loc (shls 1 + 1)
      let kstart := ao_loc (shls 2); let kend := ao_loc (shls 2 + 1)
      let lstart := ao_loc (shls 3); let lend := ao_loc (shls 3 + 1)
      let di := iend - istart; let dj := jend - jstart
      let dk := kend - kstart; let dl := lend - lstart
      some (compLoop ((di * dk) * (dj * dl)) (nao * nao)
        (li_extra_step eri (CVHFtimerev_i dm tao kstart kend istart iend nao)
          tao (di * dk) (dj * dl) nao lstart lend jstart jend)
        ncomp ((di * dk) * (dj * dl) * ncomp) 0 vk1)
  else none

/-- Embedding of `CVHFrha4_ji_s2kl` (lines 246-255): assert both orderings,
then delegate to `CVHFrs2ij_ji_s1kl`. -/
def CVHFrha4_ji_s2kl (eri dm vj : ℕ → ℤ) (nao ncomp : ℕ)
    (shls ao_loc : ℕ → ℕ) (tao : ℕ → ℤ) (dm_cond : ℕ → ℤ) (nbas : ℕ)
    (dm_atleast : ℤ) : Option (ℕ → ℤ) :=
  if shls 1 ≤ shls 0 then
    if shls 3 ≤ shls 2 then
      some (CVHFrs2ij_ji_s1kl eri dm vj nao ncomp shls ao_loc tao
        dm_cond nbas dm_atleast)
    else none
  else none

/-- Embedding of `CVHFrha4_lk_s2ij` (lines 256-265): assert both orderings,
then delegate to `CVHFrha2kl_lk_s1ij`. -/
def CVHFrha4_lk_s2ij (eri dm vj : ℕ → ℤ) (nao ncomp : ℕ)
    (shls ao_loc : ℕ → ℕ) (tao : ℕ → ℤ) (dm_cond : ℕ → ℤ) (nbas : ℕ)
    (dm_atleast : ℤ) : Option (ℕ → ℤ) :=
  if shls 1 ≤ shls 0 then
    if shls 3 ≤ shls 2 then
      CVHFrha2kl_lk_s1ij eri dm vj nao ncomp shls ao_loc tao
        dm_cond nbas dm_atleast
    else none
  else none

/-- One component step of the `tjtikl` extra term of `CVHFrha4_jk_s1il`:
`svk := p0213_blockᵀ * sdm` and back-distribute through
`CVHFtimerev_adbak_iT` into the `(j,l)` block. -/
def rha4jk_t1_step (eri sdm : ℕ → ℤ) (tao : ℕ → ℤ)
    (dik djl nao jstart jend lstart lend : ℕ) (eo vo : ℕ)
    (vk : ℕ → ℤ) : ℕ → ℤ :=
  plugAt vk vo
    (CVHFtimerev_adbak_iT
      (zgemvT dik djl 1 (viewAt eri eo) sdm 1 NPzset0)
      (viewAt vk vo) tao jstart jend lstart lend nao)

/-- One component step of the `tjtitltk` extra term of `CVHFrha4_jk_s1il`:
`dl` accumulating `di x djk` transposed matrix-vector products over slices
of the 0123 integral block, then back-distribute through
`CVHFtimerev_adbak_blockT` into the `(j,k)` block. -/
def rha4jk_t2_step (eri sdm : ℕ → ℤ) (tao : ℕ → ℤ)
    (di djk dijk dl nao jstart jend kstart kend : ℕ) (eo vo : ℕ)
    (vk : ℕ → ℤ) : ℕ → ℤ :=
  plugAt vk vo
    (CVHFtimerev_adbak_blockT
      ((List.range dl).foldl
        (fun s l => zgemvT di djk (-1) (viewAt eri (eo + l * dijk))
          (viewAt sdm (l * di)) 1 s) NPzset0)
      (viewAt vk vo) tao jstart jend kstart kend nao)

/-- Embedding of `CVHFrha4_jk_s1il` (lines 267-325): assert both orderings;
run `CVHFrha2kl_jk_s1il`; for `shls[0] > shls[1]` add the `tjtikl` term,
and for `shls[2] > shls[3]` additionally the `tjtitltk` term. -/
def CVHFrha4_jk_s1il (eri dm vk : ℕ → ℤ) (nao ncomp : ℕ)
    (shls ao_loc : ℕ → ℕ) (tao : ℕ → ℤ) (dm_cond : ℕ → ℤ) (nbas : ℕ)
    (dm_atleast : ℤ) : Option (ℕ → ℤ) :=
  if shls 1 ≤ shls 0 then
    if shls 3 ≤ shls 2 then
      match CVHFrha2kl_jk_s1il eri dm vk nao ncomp shls ao_loc tao
        dm_cond nbas dm_atleast with
      | none => none
      | some vk1 =>
        if shls 0 = shls 1 then some vk1
        else
          let istart := ao_loc (shls 0); let iend := ao_loc (shls 0 + 1)
          let jstart := ao_loc (shls 1); let jend := ao_loc (shls 1 + 1)
          let kstart := ao_loc (shls 2); let kend := ao_loc (shls 2 + 1)
          let lstart := ao_loc (shls 3); let lend := ao_loc (shls 3 + 1)
          let di := iend - istart; let dj := jend - jstart
          let dk := kend - kstart; let dl := lend - lstart
          let vk2 := compLoop ((di * dk) * (dj * dl)) (nao * nao)
            (rha4jk_t1_step eri
              (CVHFtimerev_iT dm tao istart iend kstart kend nao)
              tao (di * dk) (dj * dl) nao jstart jend lstart lend)
            ncomp ((di * dk) * (dj * dl) * ncomp) 0 vk1
          if shls 2 = shls 3 then some vk2
          else
            some (compLoop ((di * dk) * (dj * dl)) (nao * nao)
              (rha4jk_t2_step eri
                (CVHFtimerev_blockT dm tao istart iend lstart lend nao)
                tao di (dj * dk) ((di * dk) * dj) dl nao
                jstart jend kstart kend)
              ncomp 0 0 vk2)
    else none
  else none

/-- One component step of the `tjtikl` extra term of `CVHFrha4_li_s1kj`:
`svk := p0213_block * sdm` and back-distribute through
`CVHFtimerev_adbak_j` into the `(k,i)` block. -/
def rha4li_t1_step (eri sdm : ℕ → ℤ) (tao : ℕ → ℤ)
    (dik djl nao kstart kend istart iend : ℕ) (eo vo : ℕ)
    (vk : ℕ → ℤ) : ℕ → ℤ :=
  plugAt vk vo
    (CVHFtimerev_adbak_j
      (zgemvN dik djl 1 (viewAt eri eo) sdm 1 NPzset0)
      (viewAt vk vo) tao kstart kend istart iend nao)

/-- One component step of the `tjtitltk` extra term of `CVHFrha4_li_s1kj`:
`dl` accumulating `di x djk` matrix-vector products into `di`-sized slices
of the scratch, then back-distribute through `CVHFtimerev_adbak_block`
into the `(l,i)` block. -/
def rha4li_t2_step (eri sdm : ℕ → ℤ) (tao : ℕ → ℤ)
    (di djk dijk dl nao lstart lend istart iend : ℕ) (eo vo : ℕ)
    (vk : ℕ → ℤ) : ℕ → ℤ :=
  plugAt vk vo
    (CVHFtimerev_adbak_block
      ((List.range dl).foldl
        (fun s l => plugAt s (l * di)
          (zgemvN di djk (-1) (viewAt eri (eo + l * dijk)) sdm 1
            (viewAt s (l * di)))) NPzset0)
      (viewAt vk vo) tao lstart lend istart iend nao)

/-- Embedding of `CVHFrha4_li_s1kj` (lines 327-386): assert both orderings;
run `CVHFrha2kl_li_s1kj`; for `shls[0] > shls[1]` add the `tjtikl` term,
and for `shls[2] > shls[3]` additionally the `tjtitltk` term. -/
def CVHFrha4_li_s1kj (eri dm vk : ℕ → ℤ) (nao ncomp : ℕ)
    (shls ao_loc : ℕ → ℕ) (tao : ℕ → ℤ) (dm_cond : ℕ → ℤ) (nbas : ℕ)
    (dm_atleast : ℤ) : Option (ℕ → ℤ) :=
  if shls 1 ≤ shls 0 then
    if shls 3 ≤ shls 2 then
      match CVHFrha2kl_li_s1kj eri dm vk nao ncomp shls ao_loc tao
        dm_cond nbas dm_atleast with
      | none => none
      | some vk1 =>
        if shls 0 = shls 1 then some vk1
        else
          let istart := ao_loc (shls 0); let iend := ao_loc (shls 0 + 1)
          let jstart := ao_loc (shls 1); let jend := ao_loc (shls 1 + 1)
          let kstart := ao_loc (shls 2); let kend := ao_loc (shls 2 + 1)
          let lstart := ao_loc (shls 3); let lend := ao_loc (shls 3 + 1)
          let di := iend - istart; let dj := jend - jstart
          let dk := kend - kstart; let dl := lend - lstart
          let vk2 := compLoop ((di * dk) * (dj * dl)) (nao * nao)
            (rha4li_t1_step eri
              (CVHFtimerev_j dm tao lstart lend jstart jend nao)
              tao (di * dk) (dj * dl) nao kstart kend istart iend)
            ncomp ((di * dk) * (dj * dl) * ncomp) 0 vk1
          if shls 2 = shls 3 then some vk2
          else
            some (compLoop ((di * dk) * (dj * dl)) (nao * nao)
              (rha4li_t2_step eri
                (CVHFtimerev_block dm tao kstart kend jstart jend nao)
                tao di (dj * dk) ((di * dk) * dj) dl nao
                lstart lend istart iend)
              ncomp 0 0 vk2)
    else none
  else none

/- ----------------------------------------------------- -/
/- Pointwise characterization of the accumulation loops.  -/

lemma foldl_addAt_range (d : ℕ) (g : ℕ → ℕ) (x : ℕ → ℤ) (v : ℕ → ℤ) (t : ℕ) :
    (List.range d).foldl (fun w j => addAt w (g j) (x j)) v t
      = v t + ∑ j ∈ Finset.range d, if g j = t then x j else 0 := by
  induction d generalizing v with
  | zero => simp
  | succ d ih =>
    rw [List.range_succ, List.foldl_append, List.foldl_cons, List.foldl_nil,
      Finset.sum_range_succ]
    simp only [addAt]
    by_cases h : t = g d
    · rw [if_pos h, ih, if_pos h.symm]; ring
    · rw [if_neg h, ih, if_neg fun hh => h hh.symm]; ring

lemma accumRect_apply (v : ℕ → ℤ) (d1 d2 : ℕ) (pos : ℕ → ℕ → ℕ)
    (val : ℕ → ℕ → ℤ) (t : ℕ) :
    accumRect v d1 d2 pos val t
      = v t + ∑ i1 ∈ Finset.range d1, ∑ j1 ∈ Finset.range d2,
          if pos i1 j1 = t then val i1 j1 else 0 := by
  induction d1 generalizing v with
  | zero => simp [accumRect]
  | succ d ih =>
    unfold accumRect
    rw [List.range_succ, List.foldl_append, List.foldl_cons, List.foldl_nil,
      foldl_addAt_range]
    have hpre : (List.range d).foldl
        (fun w i1 => (List.range d2).foldl
          (fun w2 j1 => addAt w2 (pos i1 j1) (val i1 j1)) w) v t
        = accumRect v d d2 pos val t := rfl
    rw [hpre, ih, Finset.sum_range_succ]
    ring

lemma compLoop_apply (B n2 : ℕ) (step : ℕ → ℕ → (ℕ → ℤ) → (ℕ → ℤ))
    (G : ℕ → ℕ → ℕ → ℤ)
    (hstep : ∀ eo vo v t, step eo vo v t = v t + G eo vo t) :
    ∀ m eo vo v t, compLoop B n2 step m eo vo v t
      = v t + ∑ ic ∈ Finset.range m, G (eo + ic * B) (vo + ic * n2) t := by
  intro m
  induction m with
  | zero => intro eo vo v t; simp [compLoop]
  | succ m ih =>
    intro eo vo v t
    rw [compLoop, ih, hstep, Finset.sum_range_succ']
    have hsum : ∑ ic ∈ Finset.range m, G (eo + B + ic * B) (vo + n2 + ic * n2) t
        = ∑ ic ∈ Finset.range m,
            G (eo + (ic + 1) * B) (vo + (ic + 1) * n2) t := by
      apply Finset.sum_congr rfl
      intro ic _
      have h1 : eo + B + ic * B = eo + (ic + 1) * B := by ring
      have h2 : vo + n2 + ic * n2 = vo + (ic + 1) * n2 := by ring
      rw [h1, h2]
    rw [hsum]
    simp only [Nat.zero_mul, Nat.add_zero]
    ring

lemma plugAt_accum (vj : ℕ → ℤ) (vo d1 d2 : ℕ) (pos : ℕ → ℕ → ℕ)
    (val : ℕ → ℕ → ℤ) (t : ℕ) :
    plugAt vj vo (accumRect (viewAt vj vo) d1 d2 pos val) t
      = vj t + ∑ i1 ∈ Finset.range d1, ∑ j1 ∈ Finset.range d2,
          if vo + pos i1 j1 = t then val i1 j1 else 0 := by
  unfold plugAt
  by_cases h : vo ≤ t
  · rw [if_pos h, accumRect_apply]
    unfold viewAt
    have hvt : vo + (t - vo) = t := by omega
    rw [hvt]
    congr 1
    apply Finset.sum_congr rfl
    intro i1 _
    apply Finset.sum_congr rfl
    intro j1 _
    have hiff : (pos i1 j1 = t - vo) ↔ (vo + pos i1 j1 = t) := by omega
    exact if_congr hiff rfl rfl
  · rw [if_neg h]
    have hz : ∑ i1 ∈ Finset.range d1, ∑ j1 ∈ Finset.range d2,
        (if vo + pos i1 j1 = t then val i1 j1 else 0) = 0 := by
      apply Finset.sum_eq_zero
      intro i1 _
      apply Finset.sum_eq_zero
      intro j1 _
      rw [if_neg]
      omega
    rw [hz, add_zero]

/- Arithmetic helpers for index decomposition. -/

lemma mul_add_lt {a A b B : ℕ} (ha : a < A) (hb : b < B) : b * A + a < B * A := by
  calc b * A + a < b * A + A := by omega
    _ = (b + 1) * A := by ring
    _ ≤ B * A := Nat.mul_le_mul_right A hb

lemma rowcol_inj {n a b c d : ℕ} (hb : b < n) (hd : d < n)
    (h : a * n + b = c * n + d) : a = c ∧ b = d := by
  have hn : 0 < n := by omega
  have hm : b = d := by
    have h1 : (a * n + b) % n = b % n := by
      have e : a * n + b = n * a + b := by ring
      rw [e]; exact Nat.mul_add_mod n a b
    have h2 : (c * n + d) % n = d % n := by
      have e : c * n + d = n * c + d := by ring
      rw [e]; exact Nat.mul_add_mod n c d
    rw [Nat.mod_eq_of_lt hb] at h1
    rw [Nat.mod_eq_of_lt hd] at h2
    rw [h, h2] at h1
    omega
  refine ⟨?_, hm⟩
  have hmul : a * n = c * n := by omega
  exact Nat.eq_of_mul_eq_mul_right hn hmul

lemma decomp_div {A : ℕ} (q p : ℕ) (hp : p < A) : (q * A + p) / A = q := by
  have hA : 0 < A := by omega
  have e : q * A + p = A * q + p := by ring
  rw [e, Nat.mul_add_div hA, Nat.div_eq_of_lt hp, Nat.add_zero]

lemma decomp_mod {A : ℕ} (q p : ℕ) (hp : p < A) : (q * A + p) % A = p := by
  have e : q * A + p = A * q + p := by ring
  rw [e, Nat.mul_add_mod, Nat.mod_eq_of_lt hp]

lemma sum_range_add_split (m k : ℕ) (f : ℕ → ℤ) :
    ∑ c ∈ Finset.range (m + k), f c
      = (∑ c ∈ Finset.range m, f c) + ∑ r ∈ Finset.range k, f (m + r) := by
  induction k with
  | zero => simp
  | succ k ih =>
    rw [Nat.add_succ, Finset.sum_range_succ, Finset.sum_range_succ, ih]
    ring

lemma sum_range_mul (b a : ℕ) (f : ℕ → ℤ) :
    ∑ c ∈ Finset.range (b * a), f c
      = ∑ q ∈ Finset.range b, ∑ r ∈ Finset.range a, f (q * a + r) := by
  induction b with
  | zero => simp
  | succ b ih =>
    rw [Nat.succ_mul, sum_range_add_split, ih, Finset.sum_range_succ]

lemma add_mul_lt {a A x X : ℕ} (ha : a < A) (hx : x < X) : a + A * x < A * X := by
  calc a + A * x < A + A * x := by omega
    _ = A * (x + 1) := by ring
    _ ≤ A * X := Nat.mul_le_mul_left A hx

lemma eriIdx_lt {di dj dk dl i1 j1 k1 l1 : ℕ} (hi : i1 < di) (hj : j1 < dj)
    (hk : k1 < dk) (hl : l1 < dl) :
    eriIdx di dj dk i1 j1 k1 l1 < (di * dj) * (dk * dl) := by
  have h1 : k1 + dk * l1 < dk * dl := add_mul_lt hk hl
  have h2 : j1 + dj * (k1 + dk * l1) < dj * (dk * dl) := add_mul_lt hj h1
  have h3 : i1 + di * (j1 + dj * (k1 + dk * l1)) < di * (dj * (dk * dl)) :=
    add_mul_lt hi h2
  have e : (di * dj) * (dk * dl) = di * (dj * (dk * dl)) := by ring
  rw [e]
  exact h3

lemma lk_step_apply (eri sdm : ℕ → ℤ) (dij dkl nao is0 ie0 js0 je0 eo vo : ℕ)
    (vj : ℕ → ℤ) (t : ℕ) :
    lk_step eri sdm dij dkl nao is0 ie0 js0 je0 eo vo vj t
      = vj t + ∑ i1 ∈ Finset.range (ie0 - is0), ∑ j1 ∈ Finset.range (je0 - js0),
          if vo + ((is0 + i1) * nao + (js0 + j1)) = t then
            zgemvN dij dkl 1 (viewAt eri eo) sdm 0 NPzset0
              (j1 * (ie0 - is0) + i1)
          else 0 := by
  unfold lk_step adbak_blockT
  exact plugAt_accum vj vo (ie0 - is0) (je0 - js0) _ _ t

lemma lk_loop_apply (eri sdm : ℕ → ℤ) (dij dkl nao is0 ie0 js0 je0 m eo vo : ℕ)
    (vj : ℕ → ℤ) (t : ℕ) :
    compLoop (dij * dkl) (nao * nao)
      (lk_step eri sdm dij dkl nao is0 ie0 js0 je0) m eo vo vj t
      = vj t + ∑ ic ∈ Finset.range m,
          ∑ i1 ∈ Finset.range (ie0 - is0), ∑ j1 ∈ Finset.range (je0 - js0),
            if vo + ic * (nao * nao) + ((is0 + i1) * nao + (js0 + j1)) = t then
              zgemvN dij dkl 1 (viewAt eri (eo + ic * (dij * dkl))) sdm 0 NPzset0
                (j1 * (ie0 - is0) + i1)
            else 0 := by
  exact compLoop_apply (dij * dkl) (nao * nao) _
    (fun eo2 vo2 t2 =>
      ∑ i1 ∈ Finset.range (ie0 - is0), ∑ j1 ∈ Finset.range (je0 - js0),
        if vo2 + ((is0 + i1) * nao + (js0 + j1)) = t2 then
          zgemvN dij dkl 1 (viewAt eri eo2) sdm 0 NPzset0
            (j1 * (ie0 - is0) + i1)
        else 0)
    (fun eo2 vo2 v2 t2 => lk_step_apply eri sdm dij dkl nao is0 ie0 js0 je0
      eo2 vo2 v2 t2)
    m eo vo vj t

lemma ji_step_apply (eri : ℕ → ℤ) (wdm : ℕ → ℕ → ℤ)
    (di dj dk dl nao ks0 ls0 eo vo : ℕ) (vj : ℕ → ℤ) (t : ℕ) :
    ji_step eri wdm di dj dk dl nao ks0 ls0 eo vo vj t
      = vj t + ∑ k1 ∈ Finset.range dk, ∑ l1 ∈ Finset.range dl,
          if vo + ((ks0 + k1) * nao + (ls0 + l1)) = t then
            ∑ i1 ∈ Finset.range di, ∑ j1 ∈ Finset.range dj,
              eri (eo + eriIdx di dj dk i1 j1 k1 l1) * wdm i1 j1
          else 0 := by
  unfold ji_step
  exact accumRect_apply vj dk dl _ _ t

lemma ji_loop_apply (eri : ℕ → ℤ) (wdm : ℕ → ℕ → ℤ)
    (di dj dk dl nao ks0 ls0 B n2 m eo vo : ℕ) (vj : ℕ → ℤ) (t : ℕ) :
    compLoop B n2 (ji_step eri wdm di dj dk dl nao ks0 ls0) m eo vo vj t
      = vj t + ∑ ic ∈ Finset.range m,
          ∑ k1 ∈ Finset.range dk, ∑ l1 ∈ Finset.range dl,
            if vo + ic * n2 + ((ks0 + k1) * nao + (ls0 + l1)) = t then
              ∑ i1 ∈ Finset.range di, ∑ j1 ∈ Finset.range dj,
                eri (eo + ic * B + eriIdx di dj dk i1 j1 k1 l1) * wdm i1 j1
            else 0 := by
  exact compLoop_apply B n2 _
    (fun eo2 vo2 t2 =>
      ∑ k1 ∈ Finset.range dk, ∑ l1 ∈ Finset.range dl,
        if vo2 + ((ks0 + k1) * nao + (ls0 + l1)) = t2 then
          ∑ i1 ∈ Finset.range di, ∑ j1 ∈ Finset.range dj,
            eri (eo2 + eriIdx di dj dk i1 j1 k1 l1) * wdm i1 j1
        else 0)
    (fun eo2 vo2 v2 t2 => ji_step_apply eri wdm di dj dk dl nao ks0 ls0
      eo2 vo2 v2 t2)
    m eo vo vj t

lemma jk_rs_step_apply (eri dm : ℕ → ℤ)
    (di dj dk dl nao is0 js0 ks0 ls0 eo vo : ℕ) (vk : ℕ → ℤ) (t : ℕ) :
    jk_rs_step eri dm di dj dk dl nao is0 js0 ks0 ls0 eo vo vk t
      = vk t + ∑ i1 ∈ Finset.range di, ∑ l1 ∈ Finset.range dl,
          if vo + ((is0 + i1) * nao + (ls0 + l1)) = t then
            ∑ j1 ∈ Finset.range dj, ∑ k1 ∈ Finset.range dk,
              eri (eo + eriIdx di dj dk i1 j1 k1 l1)
                * dm ((js0 + j1) * nao + (ks0 + k1))
          else 0 := by
  unfold jk_rs_step
  exact accumRect_apply vk di dl _ _ t

lemma jk_rs_loop_apply (eri dm : ℕ → ℤ)
    (di dj dk dl nao is0 js0 ks0 ls0 B n2 m eo vo : ℕ) (vk : ℕ → ℤ) (t : ℕ) :
    compLoop B n2 (jk_rs_step eri dm di dj dk dl nao is0 js0 ks0 ls0)
      m eo vo vk t
      = vk t + ∑ ic ∈ Finset.range m,
          ∑ i1 ∈ Finset.range di, ∑ l1 ∈ Finset.range dl,
            if vo + ic * n2 + ((is0 + i1) * nao + (ls0 + l1)) = t then
              ∑ j1 ∈ Finset.range dj, ∑ k1 ∈ Finset.range dk,
                eri (eo + ic * B + eriIdx di dj dk i1 j1 k1 l1)
                  * dm ((js0 + j1) * nao + (ks0 + k1))
            else 0 := by
  exact compLoop_apply B n2 _
    (fun eo2 vo2 t2 =>
      ∑ i1 ∈ Finset.range di, ∑ l1 ∈ Finset.range dl,
        if vo2 + ((is0 + i1) * nao + (ls0 + l1)) = t2 then
          ∑ j1 ∈ Finset.range dj, ∑ k1 ∈ Finset.range dk,
            eri (eo2 + eriIdx di dj dk i1 j1 k1 l1)
              * dm ((js0 + j1) * nao + (ks0 + k1))
        else 0)
    (fun eo2 vo2 v2 t2 => jk_rs_step_apply eri dm di dj dk dl nao
      is0 js0 ks0 ls0 eo2 vo2 v2 t2)
    m eo vo vk t

lemma jk_extra_step_apply (eri sdm : ℕ → ℤ) (tao : ℕ → ℤ)
    (dik djl nao is0 ie0 ks0 ke0 eo vo : ℕ) (vk : ℕ → ℤ) (t : ℕ) :
    jk_extra_step eri sdm tao dik djl nao is0 ie0 ks0 ke0 eo vo vk t
      = vk t + ∑ i1 ∈ Finset.range (ie0 - is0), ∑ k1 ∈ Finset.range (ke0 - ks0),
          if vo + ((is0 + i1) * nao + taoIdx tao (ks0 + k1)) = t then
            taoSgn tao (ks0 + k1)
              * zgemvN dik djl (-1) (viewAt eri eo) sdm 1 NPzset0
                  (k1 * (ie0 - is0) + i1)
          else 0 := by
  unfold jk_extra_step CVHFtimerev_adbak_jT
  exact plugAt_accum vk vo (ie0 - is0) (ke0 - ks0) _ _ t

lemma jk_extra_loop_apply (eri sdm : ℕ → ℤ) (tao : ℕ → ℤ)
    (dik djl nao is0 ie0 ks0 ke0 B n2 m eo vo : ℕ) (vk : ℕ → ℤ) (t : ℕ) :
    compLoop B n2 (jk_extra_step eri sdm tao dik djl nao is0 ie0 ks0 ke0)
      m eo vo vk t
      = vk t + ∑ ic ∈ Finset.range m,
          ∑ i1 ∈ Finset.range (ie0 - is0), ∑ k1 ∈ Finset.range (ke0 - ks0),
            if vo + ic * n2 + ((is0 + i1) * nao + taoIdx tao (ks0 + k1)) = t then
              taoSgn tao (ks0 + k1)
                * zgemvN dik djl (-1) (viewAt eri (eo + ic * B)) sdm 1 NPzset0
                    (k1 * (ie0 - is0) + i1)
            else 0 := by
  exact compLoop_apply B n2 _
    (fun eo2 vo2 t2 =>
      ∑ i1 ∈ Finset.range (ie0 - is0), ∑ k1 ∈ Finset.range (ke0 - ks0),
        if vo2 + ((is0 + i1) * nao + taoIdx tao (ks0 + k1)) = t2 then
          taoSgn tao (ks0 + k1)
            * zgemvN dik djl (-1) (viewAt eri eo2) sdm 1 NPzset0
                (k1 * (ie0 - is0) + i1)
        else 0)
    (fun eo2 vo2 v2 t2 => jk_extra_step_apply eri sdm tao dik djl nao
      is0 ie0 ks0 ke0 eo2 vo2 v2 t2)
    m eo vo vk t

/- -------------------------- -/
/- Claim C6: adbak_blockT.     -/

/-- C6: the back-distribution step accumulates and never overwrites:
`adbak_blockT a blk n istart iend jstart jend` sets `a[i*n + j]` to its old
value plus `blk[(j - jstart)*(iend - istart) + (i - istart)]` for every
`istart <= i < iend`, `jstart <= j < jend` (the column range lying inside a
row of the `n`-wide matrix), and leaves every entry of `a` outside that
index rectangle unchanged. -/
theorem adbak_blockT_spec (a blk : ℕ → ℤ) (n istart iend jstart jend : ℕ)
    (hje : jend ≤ n) :
    (∀ i j, istart ≤ i → i < iend → jstart ≤ j → j < jend →
      adbak_blockT a blk n istart iend jstart jend (i * n + j)
        = a (i * n + j)
          + blk ((j - jstart) * (iend - istart) + (i - istart)))
    ∧ (∀ t, (¬ ∃ i j, istart ≤ i ∧ i < iend ∧ jstart ≤ j ∧ j < jend ∧
        t = i * n + j) →
      adbak_blockT a blk n istart iend jstart jend t = a t) := by
  constructor
  · intro i j hi1 hi2 hj1 hj2
    unfold adbak_blockT
    rw [accumRect_apply]
    have hcol : ∀ j1, j1 < jend - jstart → jstart + j1 < n := by
      intro j1 h; omega
    have hj : j < n := by omega
    rw [Finset.sum_eq_single_of_mem (i - istart)
      (Finset.mem_range.mpr (by omega))]
    · rw [Finset.sum_eq_single_of_mem (j - jstart)
        (Finset.mem_range.mpr (by omega))]
      · have e1 : istart + (i - istart) = i := by omega
        have e2 : jstart + (j - jstart) = j := by omega
        rw [e1, e2, if_pos rfl]
      · intro j1 hj1m hj1ne
        rw [if_neg]
        intro heq
        have := rowcol_inj (hcol j1 (Finset.mem_range.mp hj1m)) hj heq
        omega
    · intro i1 hi1m hi1ne
      apply Finset.sum_eq_zero
      intro j1 hj1m
      rw [if_neg]
      intro heq
      have := rowcol_inj (hcol j1 (Finset.mem_range.mp hj1m)) hj heq
      omega
  · intro t hout
    unfold adbak_blockT
    rw [accumRect_apply]
    have hz : ∑ i1 ∈ Finset.range (iend - istart),
        ∑ j1 ∈ Finset.range (jend - jstart),
          (if (istart + i1) * n + (jstart + j1) = t
            then blk (j1 * (iend - istart) + i1) else 0) = 0 := by
      apply Finset.sum_eq_zero
      intro i1 hi1m
      apply Finset.sum_eq_zero
      intro j1 hj1m
      rw [if_neg]
      intro heq
      exact hout ⟨istart + i1, jstart + j1, by omega, by
        have := Finset.mem_range.mp hi1m; omega, by omega, by
        have := Finset.mem_range.mp hj1m; omega, heq.symm⟩
    rw [hz, add_zero]

/-- Sample output matrix used by concrete witnesses. -/
def sampleA : ℕ → ℤ := fun t => (t : ℤ)

/-- Sample contracted block used by concrete witnesses. -/
def sampleBlk : ℕ → ℤ := fun c => 10 + (c : ℤ)

/-- Witness for C6 at a concrete instance. -/
theorem adbak_blockT_spec_witness :
    (2 ≤ 3)
    ∧ ((∀ i j, 1 ≤ i → i < 3 → 0 ≤ j → j < 2 →
        adbak_blockT sampleA sampleBlk 3 1 3 0 2 (i * 3 + j)
          = sampleA (i * 3 + j)
            + sampleBlk ((j - 0) * (3 - 1) + (i - 1)))
      ∧ (∀ t, (¬ ∃ i j, 1 ≤ i ∧ i < 3 ∧ 0 ≤ j ∧ j < 2 ∧ t = i * 3 + j) →
        adbak_blockT sampleA sampleBlk 3 1 3 0 2 t = sampleA t)) :=
  ⟨by decide, adbak_blockT_spec sampleA sampleBlk 3 1 3 0 2 (by decide)⟩

/- ------------------------------------------- -/
/- Claim C3: assertion safety of the kernels.   -/

lemma rha2kl_jk_isSome (eri dm vk : ℕ → ℤ) (nao ncomp : ℕ)
    (shls ao_loc : ℕ → ℕ) (tao : ℕ → ℤ) (dm_cond : ℕ → ℤ) (nbas : ℕ)
    (dm_atleast : ℤ) (h : shls 3 ≤ shls 2) :
    ∃ v, CVHFrha2kl_jk_s1il eri dm vk nao ncomp shls ao_loc tao
      dm_cond nbas dm_atleast = some v := by
  unfold CVHFrha2kl_jk_s1il
  rw [if_pos h]
  by_cases heq : shls 2 = shls 3
  · rw [if_pos heq]; exact ⟨_, rfl⟩
  · rw [if_neg heq]; exact ⟨_, rfl⟩

lemma rha2kl_li_isSome (eri dm vk : ℕ → ℤ) (nao ncomp : ℕ)
    (shls ao_loc : ℕ → ℕ) (tao : ℕ → ℤ) (dm_cond : ℕ → ℤ) (nbas : ℕ)
    (dm_atleast : ℤ) (h : shls 3 ≤ shls 2) :
    ∃ v, CVHFrha2kl_li_s1kj eri dm vk nao ncomp shls ao_loc tao
      dm_cond nbas dm_atleast = some v := by
  unfold CVHFrha2kl_li_s1kj
  rw [if_pos h]
  by_cases heq : shls 2 = shls 3
  · rw [if_pos heq]; exact ⟨_, rfl⟩
  · rw [if_neg heq]; exact ⟨_, rfl⟩

lemma rha2kl_lk_isSome (eri dm vj : ℕ → ℤ) (nao ncomp : ℕ)
    (shls ao_loc : ℕ → ℕ) (tao : ℕ → ℤ) (dm_cond : ℕ → ℤ) (nbas : ℕ)
    (dm_atleast : ℤ) (h : shls 3 ≤ shls 2) :
    ∃ v, CVHFrha2kl_lk_s1ij eri dm vj nao ncomp shls ao_loc tao
      dm_cond nbas dm_atleast = some v := by
  unfold CVHFrha2kl_lk_s1ij
  rw [if_pos h]
  by_cases heq : shls 2 = shls 3
  · rw [if_pos heq]; exact ⟨_, rfl⟩
  · rw [if_neg heq]; exact ⟨_, rfl⟩

/-- C3: every rha2kl-family kernel requires `shls[2] >= shls[3]` and every
rha4-family kernel additionally `shls[0] >= shls[1]`; an out-of-order
quadruplet makes the assertion fail (modelled as `none`), and under the
canonical-ordering precondition the assertion-failure branch is
unreachable in every kernel of both families (the result is `some`). -/
theorem rha_assertion_safety (eri dm vjk : ℕ → ℤ) (nao ncomp : ℕ)
    (shls ao_loc : ℕ → ℕ) (tao : ℕ → ℤ) (dm_cond : ℕ → ℤ) (nbas : ℕ)
    (dm_atleast : ℤ) :
    (shls 2 < shls 3 →
      CVHFrha2kl_ji_s2kl eri dm vjk nao ncomp shls ao_loc tao dm_cond nbas
          dm_atleast = none
      ∧ CVHFrha2kl_lk_s1ij eri dm vjk nao ncomp shls ao_loc tao dm_cond nbas
          dm_atleast = none
      ∧ CVHFrha2kl_jk_s1il eri dm vjk nao ncomp shls ao_loc tao dm_cond nbas
          dm_atleast = none
      ∧ CVHFrha2kl_li_s1kj eri dm vjk nao ncomp shls ao_loc tao dm_cond nbas
          dm_atleast = none
      ∧ CVHFrha4_ji_s2kl eri dm vjk nao ncomp shls ao_loc tao dm_cond nbas
          dm_atleast = none
      ∧ CVHFrha4_lk_s2ij eri dm vjk nao ncomp shls ao_loc tao dm_cond nbas
          dm_atleast = none
      ∧ CVHFrha4_jk_s1il eri dm vjk nao ncomp shls ao_loc tao dm_cond nbas
          dm_atleast = none
      ∧ CVHFrha4_li_s1kj eri dm vjk nao ncomp shls ao_loc tao dm_cond nbas
          dm_atleast = none)
    ∧ (shls 0 < shls 1 →
      CVHFrha4_ji_s2kl eri dm vjk nao ncomp shls ao_loc tao dm_cond nbas
          dm_atleast = none
      ∧ CVHFrha4_lk_s2ij eri dm vjk nao ncomp shls ao_loc tao dm_cond nbas
          dm_atleast = none
      ∧ CVHFrha4_jk_s1il eri dm vjk nao ncomp shls ao_loc tao dm_cond nbas
          dm_atleast = none
      ∧ CVHFrha4_li_s1kj eri dm vjk nao ncomp shls ao_loc tao dm_cond nbas
          dm_atleast = none)
    ∧ (shls 3 ≤ shls 2 →
      (CVHFrha2kl_ji_s2kl eri dm vjk nao ncomp shls ao_loc tao dm_cond nbas
          dm_atleast).isSome = true
      ∧ (CVHFrha2kl_lk_s1ij eri dm vjk nao ncomp shls ao_loc tao dm_cond nbas
          dm_atleast).isSome = true
      ∧ (CVHFrha2kl_jk_s1il eri dm vjk nao ncomp shls ao_loc tao dm_cond nbas
          dm_atleast).isSome = true
      ∧ (CVHFrha2kl_li_s1kj eri dm vjk nao ncomp shls ao_loc tao dm_cond nbas
          dm_atleast).isSome = true)
    ∧ (shls 1 ≤ shls 0 → shls 3 ≤ shls 2 →
      (CVHFrha4_ji_s2kl eri dm vjk nao ncomp shls ao_loc tao dm_cond nbas
          dm_atleast).isSome = true
      ∧ (CVHFrha4_lk_s2ij eri dm vjk nao ncomp shls ao_loc tao dm_cond nbas
          dm_atleast).isSome = true
      ∧ (CVHFrha4_jk_s1il eri dm vjk nao ncomp shls ao_loc tao dm_cond nbas
          dm_atleast).isSome = true
      ∧ (CVHFrha4_li_s1kj eri dm vjk nao ncomp shls ao_loc tao dm_cond nbas
          dm_atleast).isSome = true) := by
  refine ⟨?_, ?_, ?_, ?_⟩
  · intro h
    have hn : ¬ shls 3 ≤ shls 2 := by omega
    refine ⟨?_, ?_, ?_, ?_, ?_, ?_, ?_, ?_⟩
    · unfold CVHFrha2kl_ji_s2kl; rw [if_neg hn]
    · unfold CVHFrha2kl_lk_s1ij; rw [if_neg hn]
    · unfold CVHFrha2kl_jk_s1il; rw [if_neg hn]
    · unfold CVHFrha2kl_li_s1kj; rw [if_neg hn]
    · unfold CVHFrha4_ji_s2kl
      by_cases h01 : shls 1 ≤ shls 0
      · rw [if_pos h01, if_neg hn]
      · rw [if_neg h01]
    · unfold CVHFrha4_lk_s2ij
      by_cases h01 : shls 1 ≤ shls 0
      · rw [if_pos h01, if_neg hn]
      · rw [if_neg h01]
    · unfold CVHFrha4_jk_s1il
      by_cases h01 : shls 1 ≤ shls 0
      · rw [if_pos h01, if_neg hn]
      · rw [if_neg h01]
    · unfold CVHFrha4_li_s1kj
      by_cases h01 : shls 1 ≤ shls 0
      · rw [if_pos h01, if_neg hn]
      · rw [if_neg h01]
  · intro h
    have hn : ¬ shls 1 ≤ shls 0 := by omega
    refine ⟨?_, ?_, ?_, ?_⟩
    · unfold CVHFrha4_ji_s2kl; rw [if_neg hn]
    · unfold CVHFrha4_lk_s2ij; rw [if_neg hn]
    · unfold CVHFrha4_jk_s1il; rw [if_neg hn]
    · unfold CVHFrha4_li_s1kj; rw [if_neg hn]
  · intro h
    refine ⟨?_, ?_, ?_, ?_⟩
    · unfold CVHFrha2kl_ji_s2kl; rw [if_pos h]; rfl
    · obtain ⟨v, hv⟩ := rha2kl_lk_isSome eri dm vjk nao ncomp shls ao_loc tao
        dm_cond nbas dm_atleast h
      rw [hv]; rfl
    · obtain ⟨v, hv⟩ := rha2kl_jk_isSome eri dm vjk nao ncomp shls ao_loc tao
        dm_cond nbas dm_atleast h
      rw [hv]; rfl
    · obtain ⟨v, hv⟩ := rha2kl_li_isSome eri dm vjk nao ncomp shls ao_loc tao
        dm_cond nbas dm_atleast h
      rw [hv]; rfl
  · intro h01 h23
    refine ⟨?_, ?_, ?_, ?_⟩
    · unfold CVHFrha4_ji_s2kl; rw [if_pos h01, if_pos h23]; rfl
    · unfold CVHFrha4_lk_s2ij
      rw [if_pos h01, if_pos h23]
      obtain ⟨v, hv⟩ := rha2kl_lk_isSome eri dm vjk nao ncomp shls ao_loc tao
        dm_cond nbas dm_atleast h23
      rw [hv]; rfl
    · unfold CVHFrha4_jk_s1il
      rw [if_pos h01, if_pos h23]
      obtain ⟨v, hv⟩ := rha2kl_jk_isSome eri dm vjk nao ncomp shls ao_loc tao
        dm_cond nbas dm_atleast h23
      rw [hv]
      dsimp only
      by_cases heq : shls 0 = shls 1
      · rw [if_pos heq]; rfl
      · rw [if_neg heq]
        by_cases hkl : shls 2 = shls 3
        · rw [if_pos hkl]; rfl
        · rw [if_neg hkl]; rfl
    · unfold CVHFrha4_li_s1kj
      rw [if_pos h01, if_pos h23]
      obtain ⟨v, hv⟩ := rha2kl_li_isSome eri dm vjk nao ncomp shls ao_loc tao
        dm_cond nbas dm_atleast h23
      rw [hv]
      dsimp only
      by_cases heq : shls 0 = shls 1
      · rw [if_pos heq]; rfl
      · rw [if_neg heq]
        by_cases hkl : shls 2 = shls 3
        · rw [if_pos hkl]; rfl
        · rw [if_neg hkl]; rfl

/-- Sample shell quadruplet with `shls[2] < shls[3]` (out of order). -/
def sampleShlsBad : ℕ → ℕ := fun n => if n = 3 then 1 else 0

/-- Sample shell quadruplet with `shls[2] > shls[3]` (canonical order). -/
def sampleShlsKL : ℕ → ℕ := fun n => if n = 2 then 1 else 0

/-- Sample AO offset table: one AO per shell. -/
def sampleAoLoc : ℕ → ℕ := fun s => s

/-- Sample time-reversal map: the identity pairing with positive sign
(1-indexed). -/
def sampleTao : ℕ → ℤ := fun p => (p : ℤ) + 1

/-- Sample density matrix. -/
def sampleDm : ℕ → ℤ := fun t => (t : ℤ)

/-- Sample integral buffer. -/
def sampleEri : ℕ → ℤ := fun _ => 1

/-- Sample all-zero buffer. -/
def sampleZero : ℕ → ℤ := fun _ => 0

/-- Witness for C3: an out-of-order quadruplet fails the assertion, a
canonically ordered one reaches the contraction. -/
theorem rha_assertion_safety_witness :
    (CVHFrha2kl_lk_s1ij sampleEri sampleDm sampleZero 2 1 sampleShlsBad
        sampleAoLoc sampleTao sampleZero 2 0 = none)
    ∧ ((CVHFrha2kl_lk_s1ij sampleEri sampleDm sampleZero 2 1 sampleShlsKL
        sampleAoLoc sampleTao sampleZero 2 0).isSome = true)
    ∧ ((CVHFrha4_jk_s1il sampleEri sampleDm sampleZero 2 1 sampleShlsKL
        sampleAoLoc sampleTao sampleZero 2 0).isSome = true) :=
  ⟨((rha_assertion_safety sampleEri sampleDm sampleZero 2 1 sampleShlsBad
      sampleAoLoc sampleTao sampleZero 2 0).1 (by decide)).2.1,
   ((rha_assertion_safety sampleEri sampleDm sampleZero 2 1 sampleShlsKL
      sampleAoLoc sampleTao sampleZero 2 0).2.2.1 (by decide)).2.1,
   ((rha_assertion_safety sampleEri sampleDm sampleZero 2 1 sampleShlsKL
      sampleAoLoc sampleTao sampleZero 2 0).2.2.2 (by decide) (by decide)).2.2.1⟩

/- ------------------------------------------------------- -/
/- Claim C5: collapsed axis pairs reduce to the s1 kernels. -/

/-- C5: for `shls[2] == shls[3]` each rha2kl kernel reduces exactly to the
corresponding no-symmetry kernel with the extra time-reversal term skipped,
and for `shls[0] == shls[1]` the rha4 K-build kernels skip their extra
terms, reducing to the rha2kl kernels. -/
theorem rha_collapse_reduces_to_s1 (eri dm vjk : ℕ → ℤ) (nao ncomp : ℕ)
    (shls ao_loc : ℕ → ℕ) (tao : ℕ → ℤ) (dm_cond : ℕ → ℤ) (nbas : ℕ)
    (dm_atleast : ℤ) :
    (shls 2 = shls 3 →
      CVHFrha2kl_lk_s1ij eri dm vjk nao ncomp shls ao_loc tao dm_cond nbas
          dm_atleast
        = some (CVHFrs1_lk_s1ij eri dm vjk nao ncomp shls ao_loc tao dm_cond
            nbas dm_atleast)
      ∧ CVHFrha2kl_jk_s1il eri dm vjk nao ncomp shls ao_loc tao dm_cond nbas
          dm_atleast
        = some (CVHFrs1_jk_s1il eri dm vjk nao ncomp shls ao_loc tao dm_cond
            nbas dm_atleast)
      ∧ CVHFrha2kl_li_s1kj eri dm vjk nao ncomp shls ao_loc tao dm_cond nbas
          dm_atleast
        = some (CVHFrs1_li_s1kj eri dm vjk nao ncomp shls ao_loc tao dm_cond
            nbas dm_atleast))
    ∧ (shls 0 = shls 1 →
      CVHFrha4_jk_s1il eri dm vjk nao ncomp shls ao_loc tao dm_cond nbas
          dm_atleast
        = CVHFrha2kl_jk_s1il eri dm vjk nao ncomp shls ao_loc tao dm_cond nbas
            dm_atleast
      ∧ CVHFrha4_li_s1kj eri dm vjk nao ncomp shls ao_loc tao dm_cond nbas
          dm_atleast
        = CVHFrha2kl_li_s1kj eri dm vjk nao ncomp shls ao_loc tao dm_cond nbas
            dm_atleast) := by
  constructor
  · intro h
    have hle : shls 3 ≤ shls 2 := by omega
    refine ⟨?_, ?_, ?_⟩
    · unfold CVHFrha2kl_lk_s1ij
      rw [if_pos hle, if_pos h]
    · unfold CVHFrha2kl_jk_s1il
      rw [if_pos hle]
      dsimp only
      rw [if_pos h]
    · unfold CVHFrha2kl_li_s1kj
      rw [if_pos hle]
      dsimp only
      rw [if_pos h]
  · intro h01
    have hle01 : shls 1 ≤ shls 0 := by omega
    constructor
    · unfold CVHFrha4_jk_s1il
      rw [if_pos hle01]
      by_cases h23 : shls 3 ≤ shls 2
      · rw [if_pos h23]
        rcases hx : CVHFrha2kl_jk_s1il eri dm vjk nao ncomp shls ao_loc tao
          dm_cond nbas dm_atleast with _ | v
        · rfl
        · dsimp only
          rw [if_pos h01]
      · rw [if_neg h23]
        unfold CVHFrha2kl_jk_s1il
        rw [if_neg h23]
    · unfold CVHFrha4_li_s1kj
      rw [if_pos hle01]
      by_cases h23 : shls 3 ≤ shls 2
      · rw [if_pos h23]
        rcases hx : CVHFrha2kl_li_s1kj eri dm vjk nao ncomp shls ao_loc tao
          dm_cond nbas dm_atleast with _ | v
        · rfl
        · dsimp only
          rw [if_pos h01]
      · rw [if_neg h23]
        unfold CVHFrha2kl_li_s1kj
        rw [if_neg h23]

/-- Sample quadruplet with all four shells equal (both axis pairs
collapsed). -/
def sampleShlsAll0 : ℕ → ℕ := fun _ => 0

/-- Witness for C5 at a concrete collapsed quadruplet. -/
theorem rha_collapse_reduces_to_s1_witness :
    (sampleShlsAll0 2 = sampleShlsAll0 3
      ∧ CVHFrha2kl_lk_s1ij sampleEri sampleDm sampleZero 2 1 sampleShlsAll0
          sampleAoLoc sampleTao sampleZero 1 0
        = some (CVHFrs1_lk_s1ij sampleEri sampleDm sampleZero 2 1
            sampleShlsAll0 sampleAoLoc sampleTao sampleZero 1 0))
    ∧ (sampleShlsAll0 0 = sampleShlsAll0 1
      ∧ CVHFrha4_jk_s1il sampleEri sampleDm sampleZero 2 1 sampleShlsAll0
          sampleAoLoc sampleTao sampleZero 1 0
        = CVHFrha2kl_jk_s1il sampleEri sampleDm sampleZero 2 1 sampleShlsAll0
            sampleAoLoc sampleTao sampleZero 1 0) :=
  ⟨⟨rfl, ((rha_collapse_reduces_to_s1 sampleEri sampleDm sampleZero 2 1
      sampleShlsAll0 sampleAoLoc sampleTao sampleZero 1 0).1 rfl).1⟩,
   ⟨rfl, ((rha_collapse_reduces_to_s1 sampleEri sampleDm sampleZero 2 1
      sampleShlsAll0 sampleAoLoc sampleTao sampleZero 1 0).2 rfl).1⟩⟩

/- --------------------------------------------------------------- -/
/- Claim C10: s1-mode delegations and s4-mode guard-only wrappers.  -/

/-- C10: the s1-mode rha kernels are definitionally the corresponding rs
kernels, and under the canonical-ordering preconditions the s4-mode J-build
kernels equal their s2 counterparts: the hermitian-e1/anti-hermitian-e2
tagging adds no extra term in these modes. -/
theorem rha1_rha4_delegation :
    CVHFrha1_ji_s1kl = CVHFrs1_ji_s1kl
    ∧ CVHFrha1_lk_s1ij = CVHFrs1_lk_s1ij
    ∧ CVHFrha1_jk_s1il = CVHFrs1_jk_s1il
    ∧ CVHFrha1_li_s1kj = CVHFrs1_li_s1kj
    ∧ (∀ (eri dm vj : ℕ → ℤ) (nao ncomp : ℕ) (shls ao_loc : ℕ → ℕ)
        (tao : ℕ → ℤ) (dm_cond : ℕ → ℤ) (nbas : ℕ) (dm_atleast : ℤ),
        shls 1 ≤ shls 0 → shls 3 ≤ shls 2 →
        CVHFrha4_ji_s2kl eri dm vj nao ncomp shls ao_loc tao dm_cond nbas
            dm_atleast
          = some (CVHFrs2ij_ji_s1kl eri dm vj nao ncomp shls ao_loc tao
              dm_cond nbas dm_atleast))
    ∧ (∀ (eri dm vj : ℕ → ℤ) (nao ncomp : ℕ) (shls ao_loc : ℕ → ℕ)
        (tao : ℕ → ℤ) (dm_cond : ℕ → ℤ) (nbas : ℕ) (dm_atleast : ℤ),
        shls 1 ≤ shls 0 → shls 3 ≤ shls 2 →
        CVHFrha4_lk_s2ij eri dm vj nao ncomp shls ao_loc tao dm_cond nbas
            dm_atleast
          = CVHFrha2kl_lk_s1ij eri dm vj nao ncomp shls ao_loc tao dm_cond
              nbas dm_atleast) := by
  refine ⟨rfl, rfl, rfl, rfl, ?_, ?_⟩
  · intro eri dm vj nao ncomp shls ao_loc tao dm_cond nbas dm_atleast h01 h23
    unfold CVHFrha4_ji_s2kl
    rw [if_pos h01, if_pos h23]
  · intro eri dm vj nao ncomp shls ao_loc tao dm_cond nbas dm_atleast h01 h23
    unfold CVHFrha4_lk_s2ij
    rw [if_pos h01, if_pos h23]

/-- Witness for C10 at a concrete canonically ordered quadruplet. -/
theorem rha1_rha4_delegation_witness :
    CVHFrha1_ji_s1kl = CVHFrs1_ji_s1kl
    ∧ CVHFrha4_ji_s2kl sampleEri sampleDm sampleZero 2 1 sampleShlsKL
        sampleAoLoc sampleTao sampleZero 2 0
      = some (CVHFrs2ij_ji_s1kl sampleEri sampleDm sampleZero 2 1 sampleShlsKL
          sampleAoLoc sampleTao sampleZero 2 0)
    ∧ CVHFrha4_lk_s2ij sampleEri sampleDm sampleZero 2 1 sampleShlsKL
        sampleAoLoc sampleTao sampleZero 2 0
      = CVHFrha2kl_lk_s1ij sampleEri sampleDm sampleZero 2 1 sampleShlsKL
          sampleAoLoc sampleTao sampleZero 2 0 :=
  ⟨rha1_rha4_delegation.1,
   rha1_rha4_delegation.2.2.2.2.1 sampleEri sampleDm sampleZero 2 1
     sampleShlsKL sampleAoLoc sampleTao sampleZero 2 0 (by decide) (by decide),
   rha1_rha4_delegation.2.2.2.2.2 sampleEri sampleDm sampleZero 2 1
     sampleShlsKL sampleAoLoc sampleTao sampleZero 2 0 (by decide) (by decide)⟩

/- ----------------------------------------------------------- -/
/- Claim C7: determinism of every kernel in rha_direct_dot.c.   -/

/-- C7: every contraction kernel of `rha_direct_dot.c` --- the four
`rha1`, four `rha2ij`, four `rha2kl` and four `rha4` kernels --- is
deterministic with a fixed contraction order: two invocations on identical
`eri`, `dm`, output accumulator, `nao`, `ncomp`, `shls`, `ao_loc` and
`tao` inputs produce identical output accumulators, even when the
screening arguments `dm_cond`, `nbas` and `dm_atleast` differ.  Each
kernel is embedded as a pure function whose single sequential fold fixes
the contraction order, so the claimed input list alone determines the
output. -/
theorem rha_kernels_deterministic
    (eri eri' dm dm' vjk vjk' : ℕ → ℤ) (nao nao' ncomp ncomp' : ℕ)
    (shls shls' ao_loc ao_loc' : ℕ → ℕ) (tao tao' : ℕ → ℤ)
    (dm_cond dm_cond' : ℕ → ℤ) (nbas nbas' : ℕ) (dm_atleast dm_atleast' : ℤ)
    (h1 : eri = eri') (h2 : dm = dm') (h3 : vjk = vjk') (h4 : nao = nao')
    (h5 : ncomp = ncomp') (h6 : shls = shls') (h7 : ao_loc = ao_loc')
    (h8 : tao = tao') :
    CVHFrha1_ji_s1kl eri dm vjk nao ncomp shls ao_loc tao dm_cond nbas
        dm_atleast
      = CVHFrha1_ji_s1kl eri' dm' vjk' nao' ncomp' shls' ao_loc' tao'
          dm_cond' nbas' dm_atleast'
    ∧ CVHFrha1_lk_s1ij eri dm vjk nao ncomp shls ao_loc tao dm_cond nbas
        dm_atleast
      = CVHFrha1_lk_s1ij eri' dm' vjk' nao' ncomp' shls' ao_loc' tao'
          dm_cond' nbas' dm_atleast'
    ∧ CVHFrha1_jk_s1il eri dm vjk nao ncomp shls ao_loc tao dm_cond nbas
        dm_atleast
      = CVHFrha1_jk_s1il eri' dm' vjk' nao' ncomp' shls' ao_loc' tao'
          dm_cond' nbas' dm_atleast'
    ∧ CVHFrha1_li_s1kj eri dm vjk nao ncomp shls ao_loc tao dm_cond nbas
        dm_atleast
      = CVHFrha1_li_s1kj eri' dm' vjk' nao' ncomp' shls' ao_loc' tao'
          dm_cond' nbas' dm_atleast'
    ∧ CVHFrha2ij_ji_s1kl eri dm vjk nao ncomp shls ao_loc tao dm_cond nbas
        dm_atleast
      = CVHFrha2ij_ji_s1kl eri' dm' vjk' nao' ncomp' shls' ao_loc' tao'
          dm_cond' nbas' dm_atleast'
    ∧ CVHFrha2ij_lk_s2ij eri dm vjk nao ncomp shls ao_loc tao dm_cond nbas
        dm_atleast
      = CVHFrha2ij_lk_s2ij eri' dm' vjk' nao' ncomp' shls' ao_loc' tao'
          dm_cond' nbas' dm_atleast'
    ∧ CVHFrha2ij_jk_s1il eri dm vjk nao ncomp shls ao_loc tao dm_cond nbas
        dm_atleast
      = CVHFrha2ij_jk_s1il eri' dm' vjk' nao' ncomp' shls' ao_loc' tao'
          dm_cond' nbas' dm_atleast'
    ∧ CVHFrha2ij_li_s1kj eri dm vjk nao ncomp shls ao_loc tao dm_cond nbas
        dm_atleast
      = CVHFrha2ij_li_s1kj eri' dm' vjk' nao' ncomp' shls' ao_loc' tao'
          dm_cond' nbas' dm_atleast'
    ∧ CVHFrha2kl_ji_s2kl eri dm vjk nao ncomp shls ao_loc tao dm_cond nbas
        dm_atleast
      = CVHFrha2kl_ji_s2kl eri' dm' vjk' nao' ncomp' shls' ao_loc' tao'
          dm_cond' nbas' dm_atleast'
    ∧ CVHFrha2kl_lk_s1ij eri dm vjk nao ncomp shls ao_loc tao dm_cond nbas
        dm_atleast
      = CVHFrha2kl_lk_s1ij eri' dm' vjk' nao' ncomp' shls' ao_loc' tao'
          dm_cond' nbas' dm_atleast'
    ∧ CVHFrha2kl_jk_s1il eri dm vjk nao ncomp shls ao_loc tao dm_cond nbas
        dm_atleast
      = CVHFrha2kl_jk_s1il eri' dm' vjk' nao' ncomp' shls' ao_loc' tao'
          dm_cond' nbas' dm_atleast'
    ∧ CVHFrha2kl_li_s1kj eri dm vjk nao ncomp shls ao_loc tao dm_cond nbas
        dm_atleast
      = CVHFrha2kl_li_s1kj eri' dm' vjk' nao' ncomp' shls' ao_loc' tao'
          dm_cond' nbas' dm_atleast'
    ∧ CVHFrha4_ji_s2kl eri dm vjk nao ncomp shls ao_loc tao dm_cond nbas
        dm_atleast
      = CVHFrha4_ji_s2kl eri' dm' vjk' nao' ncomp' shls' ao_loc' tao'
          dm_cond' nbas' dm_atleast'
    ∧ CVHFrha4_lk_s2ij eri dm vjk nao ncomp shls ao_loc tao dm_cond nbas
        dm_atleast
      = CVHFrha4_lk_s2ij eri' dm' vjk' nao' ncomp' shls' ao_loc' tao'
          dm_cond' nbas' dm_atleast'
    ∧ CVHFrha4_jk_s1il eri dm vjk nao ncomp shls ao_loc tao dm_cond nbas
        dm_atleast
      = CVHFrha4_jk_s1il eri' dm' vjk' nao' ncomp' shls' ao_loc' tao'
          dm_cond' nbas' dm_atleast'
    ∧ CVHFrha4_li_s1kj eri dm vjk nao ncomp shls ao_loc tao dm_cond nbas
        dm_atleast
      = CVHFrha4_li_s1kj eri' dm' vjk' nao' ncomp' shls' ao_loc' tao'
          dm_cond' nbas' dm_atleast' := by
  subst h1 h2 h3 h4 h5 h6 h7 h8
  exact ⟨rfl, rfl, rfl, rfl, rfl, rfl, rfl, rfl, rfl, rfl, rfl, rfl, rfl, rfl, rfl, rfl⟩

/-- Witness for C7 at a concrete input: the two invocations agree on the
claimed input list but differ in all three screening arguments. -/
theorem rha_kernels_deterministic_witness :
    CVHFrha2ij_jk_s1il sampleEri sampleDm sampleZero 2 1 sampleShlsKL
        sampleAoLoc sampleTao sampleZero 2 0
      = CVHFrha2ij_jk_s1il sampleEri sampleDm sampleZero 2 1 sampleShlsKL
          sampleAoLoc sampleTao sampleDm 3 7
    ∧ CVHFrha4_jk_s1il sampleEri sampleDm sampleZero 2 1 sampleShlsKL
        sampleAoLoc sampleTao sampleZero 2 0
      = CVHFrha4_jk_s1il sampleEri sampleDm sampleZero 2 1 sampleShlsKL
          sampleAoLoc sampleTao sampleDm 3 7 :=
  ⟨(rha_kernels_deterministic sampleEri sampleEri sampleDm sampleDm sampleZero
      sampleZero 2 2 1 1 sampleShlsKL sampleShlsKL sampleAoLoc sampleAoLoc
      sampleTao sampleTao sampleZero sampleDm 2 3 0 7
      rfl rfl rfl rfl rfl rfl rfl rfl).2.2.2.2.2.2.1,
   (rha_kernels_deterministic sampleEri sampleEri sampleDm sampleDm sampleZero
      sampleZero 2 2 1 1 sampleShlsKL sampleShlsKL sampleAoLoc sampleAoLoc
      sampleTao sampleTao sampleZero sampleDm 2 3 0 7
      rfl rfl rfl rfl rfl rfl rfl rfl).2.2.2.2.2.2.2.2.2.2.2.2.2.2.1⟩

/- -------------------------------------------------------------------- -/
/- Claim C9: the kernels never read dm_cond / dm_atleast themselves.     -/

/-- C9: the code paths defined in `rha_direct_dot.c` itself never read the
screening arguments `dm_cond` and `dm_atleast`: the time-reversal extra
terms the kernels add are identical for any two values of those arguments.
For `CVHFrha2kl_lk_s1ij` with `shls[2] > shls[3]` the whole kernel is the
extra term, and for `CVHFrha4_li_s1kj` everything beyond the delegated
`CVHFrha2kl_li_s1kj` call is independent of the screening arguments. -/
theorem rha_screening_args_unread (eri dm vjk : ℕ → ℤ) (nao ncomp : ℕ)
    (shls ao_loc : ℕ → ℕ) (tao : ℕ → ℤ) (dm_cond dm_cond' : ℕ → ℤ)
    (nbas : ℕ) (dm_atleast dm_atleast' : ℤ) :
    (shls 3 < shls 2 →
      CVHFrha2kl_lk_s1ij eri dm vjk nao ncomp shls ao_loc tao dm_cond nbas
          dm_atleast
        = CVHFrha2kl_lk_s1ij eri dm vjk nao ncomp shls ao_loc tao dm_cond'
            nbas dm_atleast')
    ∧ (CVHFrha2kl_li_s1kj eri dm vjk nao ncomp shls ao_loc tao dm_cond nbas
          dm_atleast
        = CVHFrha2kl_li_s1kj eri dm vjk nao ncomp shls ao_loc tao dm_cond'
            nbas dm_atleast' →
      CVHFrha4_li_s1kj eri dm vjk nao ncomp shls ao_loc tao dm_cond nbas
          dm_atleast
        = CVHFrha4_li_s1kj eri dm vjk nao ncomp shls ao_loc tao dm_cond' nbas
            dm_atleast') := by
  constructor
  · intro hlt
    have hle : shls 3 ≤ shls 2 := by omega
    have hne : ¬ shls 2 = shls 3 := by omega
    unfold CVHFrha2kl_lk_s1ij
    rw [if_pos hle, if_neg hne, if_pos hle, if_neg hne]
  · intro hdel
    unfold CVHFrha4_li_s1kj
    by_cases h01 : shls 1 ≤ shls 0
    · by_cases h23 : shls 3 ≤ shls 2
      · rw [if_pos h01, if_pos h23, if_pos h01, if_pos h23, hdel]
      · rw [if_pos h01, if_neg h23, if_pos h01, if_neg h23]
    · rw [if_neg h01, if_neg h01]

/-- Witness for C9 with two distinct screening inputs. -/
theorem rha_screening_args_unread_witness :
    (sampleShlsKL 3 < sampleShlsKL 2
      ∧ CVHFrha2kl_lk_s1ij sampleEri sampleDm sampleZero 2 1 sampleShlsKL
          sampleAoLoc sampleTao sampleZero 2 0
        = CVHFrha2kl_lk_s1ij sampleEri sampleDm sampleZero 2 1 sampleShlsKL
            sampleAoLoc sampleTao sampleDm 2 7)
    ∧ CVHFrha4_li_s1kj sampleEri sampleDm sampleZero 2 1 sampleShlsKL
        sampleAoLoc sampleTao sampleZero 2 0
      = CVHFrha4_li_s1kj sampleEri sampleDm sampleZero 2 1 sampleShlsKL
          sampleAoLoc sampleTao sampleDm 2 7 :=
  ⟨⟨by decide,
    (rha_screening_args_unread sampleEri sampleDm sampleZero 2 1 sampleShlsKL
      sampleAoLoc sampleTao sampleZero sampleDm 2 0 7).1 (by decide)⟩,
   (rha_screening_args_unread sampleEri sampleDm sampleZero 2 1 sampleShlsKL
      sampleAoLoc sampleTao sampleZero sampleDm 2 0 7).2 rfl⟩

/- ----------------------------------------------------------------- -/
/- Collapse of the loop sums at one matrix entry of one component.    -/

lemma triple_collapse (ncomp nao d1 d2 is0 js0 : ℕ) (F : ℕ → ℕ → ℕ → ℤ)
    (ic i j : ℕ) (hic : ic < ncomp)
    (hi1 : is0 ≤ i) (hi2 : i < is0 + d1) (hj1 : js0 ≤ j) (hj2 : j < js0 + d2)
    (hid : is0 + d1 ≤ nao) (hjd : js0 + d2 ≤ nao) :
    (∑ ic2 ∈ Finset.range ncomp, ∑ i1 ∈ Finset.range d1,
      ∑ j1 ∈ Finset.range d2,
        if ic2 * (nao * nao) + ((is0 + i1) * nao + (js0 + j1))
            = ic * (nao * nao) + (i * nao + j) then F ic2 i1 j1 else 0)
      = F ic (i - is0) (j - js0) := by
  have hp : i * nao + j < nao * nao :=
    mul_add_lt (show j < nao by omega) (show i < nao by omega)
  have houter : ∀ b ∈ Finset.range ncomp, b ≠ ic →
      (∑ i1 ∈ Finset.range d1, ∑ j1 ∈ Finset.range d2,
        if b * (nao * nao) + ((is0 + i1) * nao + (js0 + j1))
            = ic * (nao * nao) + (i * nao + j) then F b i1 j1 else 0) = 0 := by
    intro b _ hbne
    apply Finset.sum_eq_zero
    intro i1 hi1m
    apply Finset.sum_eq_zero
    intro j1 hj1m
    rw [if_neg]
    intro heq
    have hi1r := Finset.mem_range.mp hi1m
    have hj1r := Finset.mem_range.mp hj1m
    have hlt1 : (is0 + i1) * nao + (js0 + j1) < nao * nao :=
      mul_add_lt (show js0 + j1 < nao by omega) (show is0 + i1 < nao by omega)
    exact hbne (rowcol_inj hlt1 hp heq).1
  rw [Finset.sum_eq_single_of_mem ic (Finset.mem_range.mpr hic) houter]
  have hmid : ∀ b ∈ Finset.range d1, b ≠ i - is0 →
      (∑ j1 ∈ Finset.range d2,
        if ic * (nao * nao) + ((is0 + b) * nao + (js0 + j1))
            = ic * (nao * nao) + (i * nao + j) then F ic b j1 else 0) = 0 := by
    intro b hbm hbne
    apply Finset.sum_eq_zero
    intro j1 hj1m
    rw [if_neg]
    intro heq
    have hj1r := Finset.mem_range.mp hj1m
    have heq2 : (is0 + b) * nao + (js0 + j1) = i * nao + j := by omega
    have := rowcol_inj (show js0 + j1 < nao by omega) (show j < nao by omega)
      heq2
    omega
  rw [Finset.sum_eq_single_of_mem (i - is0) (Finset.mem_range.mpr (by omega))
    hmid]
  have hlast : ∀ b ∈ Finset.range d2, b ≠ j - js0 →
      (if ic * (nao * nao) + ((is0 + (i - is0)) * nao + (js0 + b))
          = ic * (nao * nao) + (i * nao + j) then F ic (i - is0) b else 0)
        = 0 := by
    intro b hbm hbne
    rw [if_neg]
    intro heq
    have heq2 : (is0 + (i - is0)) * nao + (js0 + b) = i * nao + j := by omega
    have := rowcol_inj (show js0 + b < nao by
      have := Finset.mem_range.mp hbm; omega) (show j < nao by omega) heq2
    omega
  rw [Finset.sum_eq_single_of_mem (j - js0) (Finset.mem_range.mpr (by omega))
    hlast]
  have e1 : is0 + (i - is0) = i := by omega
  have e2 : js0 + (j - js0) = j := by omega
  rw [e1, e2, if_pos rfl]

/- ----------------------------------------------------------------- -/
/- Claim C2: the J-build contraction of CVHFrha2kl_lk_s1ij.           -/

/-- C2: in `CVHFrha2kl_lk_s1ij` with `shls[2] > shls[3]`, the density
slice contracted against each integral component is the `ijminus`
time-reversal combination over the `(l,k)` ranges, contracted by one
`dij x dkl` matrix-vector product, and the `dij`-length result is
back-distributed transposed (position `(j - jstart)*di + (i - istart)`),
accumulating into rows `[istart,iend)` and columns `[jstart,jend)`
of `vj`. -/
theorem rha2kl_lk_s1ij_formula
    (eri dm vj : ℕ → ℤ) (nao ncomp : ℕ) (shls ao_loc : ℕ → ℕ) (tao : ℕ → ℤ)
    (dm_cond : ℕ → ℤ) (nbas : ℕ) (dm_atleast : ℤ)
    (istart iend jstart jend kstart kend lstart lend : ℕ)
    (his : istart = ao_loc (shls 0)) (hie : iend = ao_loc (shls 0 + 1))
    (hjs : jstart = ao_loc (shls 1)) (hje : jend = ao_loc (shls 1 + 1))
    (hks : kstart = ao_loc (shls 2)) (hke : kend = ao_loc (shls 2 + 1))
    (hls : lstart = ao_loc (shls 3)) (hle : lend = ao_loc (shls 3 + 1))
    (hkl : shls 3 < shls 2) (hien : iend ≤ nao) (hjen : jend ≤ nao) :
    ∃ out, CVHFrha2kl_lk_s1ij eri dm vj nao ncomp shls ao_loc tao dm_cond nbas
        dm_atleast = some out
      ∧ ∀ ic i j, ic < ncomp → istart ≤ i → i < iend → jstart ≤ j → j < jend →
          out (ic * (nao * nao) + (i * nao + j))
            = vj (ic * (nao * nao) + (i * nao + j))
              + ∑ c ∈ Finset.range ((kend - kstart) * (lend - lstart)),
                  eri (ic * (((iend - istart) * (jend - jstart))
                        * ((kend - kstart) * (lend - lstart)))
                      + (c * ((iend - istart) * (jend - jstart))
                        + ((j - jstart) * (iend - istart) + (i - istart))))
                    * CVHFtimerev_ijminus dm tao lstart lend kstart kend nao
                        c := by
  subst his hie hjs hje hks hke hls hle
  have hsle : shls 3 ≤ shls 2 := by omega
  have hsne : ¬ shls 2 = shls 3 := by omega
  unfold CVHFrha2kl_lk_s1ij
  rw [if_pos hsle, if_neg hsne]
  refine ⟨_, rfl, ?_⟩
  intro ic i j hic hi1 hi2 hj1 hj2
  rw [lk_loop_apply]
  simp only [Nat.zero_add]
  congr 1
  rw [triple_collapse ncomp nao _ _ _ _ _ ic i j hic hi1 (by omega) hj1
    (by omega) (by omega) (by omega)]
  have hr : (j - ao_loc (shls 1)) * (ao_loc (shls 0 + 1) - ao_loc (shls 0))
      + (i - ao_loc (shls 0))
      < (ao_loc (shls 0 + 1) - ao_loc (shls 0))
        * (ao_loc (shls 1 + 1) - ao_loc (shls 1)) := by
    have h := mul_add_lt
      (show i - ao_loc (shls 0) < ao_loc (shls 0 + 1) - ao_loc (shls 0) by
        omega)
      (show j - ao_loc (shls 1) < ao_loc (shls 1 + 1) - ao_loc (shls 1) by
        omega)
    rw [Nat.mul_comm (ao_loc (shls 0 + 1) - ao_loc (shls 0))
      (ao_loc (shls 1 + 1) - ao_loc (shls 1))]
    exact h
  simp only [zgemvN, if_pos hr, NPzset0, viewAt]
  simp only [zero_mul, mul_zero, zero_add, one_mul]

/-- Witness for C2 at a concrete quadruplet with `shls[2] > shls[3]`. -/
theorem rha2kl_lk_s1ij_formula_witness :
    (sampleShlsKL 3 < sampleShlsKL 2)
    ∧ ∃ out, CVHFrha2kl_lk_s1ij sampleEri sampleDm sampleZero 2 1 sampleShlsKL
        sampleAoLoc sampleTao sampleZero 2 0 = some out
      ∧ ∀ ic i j, ic < 1 → 0 ≤ i → i < 1 → 0 ≤ j → j < 1 →
          out (ic * (2 * 2) + (i * 2 + j))
            = sampleZero (ic * (2 * 2) + (i * 2 + j))
              + ∑ c ∈ Finset.range ((2 - 1) * (1 - 0)),
                  sampleEri (ic * (((1 - 0) * (1 - 0)) * ((2 - 1) * (1 - 0)))
                      + (c * ((1 - 0) * (1 - 0))
                        + ((j - 0) * (1 - 0) + (i - 0))))
                    * CVHFtimerev_ijminus sampleDm sampleTao 0 1 1 2 2 c :=
  ⟨by decide,
   rha2kl_lk_s1ij_formula sampleEri sampleDm sampleZero 2 1 sampleShlsKL
     sampleAoLoc sampleTao sampleZero 2 0 0 1 0 1 1 2 0 1
     rfl rfl rfl rfl rfl rfl rfl rfl (by decide) (by decide) (by decide)⟩

/- -------------------------------------------------------------- -/
/- Claim C4: no one-half scaling of diagonal blocks in these        -/
/- kernels; the collapse is handled by delegation at full weight.   -/

/-- Counterexample to C4: on a concrete collapsed quadruplet
(`shls[2] == shls[3]`, one AO per shell, unit integrals and unit density,
zero accumulator) `CVHFrha2kl_lk_s1ij` adds the diagonal-block contribution
`1` at full weight, identical to the no-symmetry kernel
`CVHFrs1_lk_s1ij`, and `1` is not one-half of that full contribution
(`2 * 1 = 1` is false): the kernel applies no factor of one-half. -/
theorem rha_half_scaling_cex :
    Option.map (fun f => f 0)
        (CVHFrha2kl_lk_s1ij sampleEri sampleEri sampleZero 1 1 sampleShlsAll0
          sampleAoLoc sampleTao sampleZero 1 0) = some 1
    ∧ CVHFrs1_lk_s1ij sampleEri sampleEri sampleZero 1 1 sampleShlsAll0
        sampleAoLoc sampleTao sampleZero 1 0 0 = 1
    ∧ ¬ (2 * (1 : ℤ) = 1) := by
  refine ⟨by decide, by decide, by decide⟩

/-- Amended C4: for a shell quadruplet with a collapsed `k,l` axis pair the
cited contraction kernels do not scale the diagonal block by one-half;
they special-case the collapse by delegating to the corresponding
no-symmetry kernel, so the diagonal-block contribution enters exactly once
at full weight and the time-reversal extra term is skipped. -/
theorem rha_diagonal_full_weight (eri dm vjk : ℕ → ℤ) (nao ncomp : ℕ)
    (shls ao_loc : ℕ → ℕ) (tao : ℕ → ℤ) (dm_cond : ℕ → ℤ) (nbas : ℕ)
    (dm_atleast : ℤ) (h : shls 2 = shls 3) :
    CVHFrha2kl_lk_s1ij eri dm vjk nao ncomp shls ao_loc tao dm_cond nbas
        dm_atleast
      = some (CVHFrs1_lk_s1ij eri dm vjk nao ncomp shls ao_loc tao dm_cond
          nbas dm_atleast)
    ∧ CVHFrha2kl_jk_s1il eri dm vjk nao ncomp shls ao_loc tao dm_cond nbas
        dm_atleast
      = some (CVHFrs1_jk_s1il eri dm vjk nao ncomp shls ao_loc tao dm_cond
          nbas dm_atleast) := by
  have hle : shls 3 ≤ shls 2 := by omega
  constructor
  · unfold CVHFrha2kl_lk_s1ij
    rw [if_pos hle, if_pos h]
  · unfold CVHFrha2kl_jk_s1il
    rw [if_pos hle]
    dsimp only
    rw [if_pos h]

/-- Witness for the amended C4 at a concrete collapsed quadruplet. -/
theorem rha_diagonal_full_weight_witness :
    (sampleShlsAll0 2 = sampleShlsAll0 3)
    ∧ CVHFrha2kl_lk_s1ij sampleEri sampleEri sampleZero 1 1 sampleShlsAll0
        sampleAoLoc sampleTao sampleZero 1 0
      = some (CVHFrs1_lk_s1ij sampleEri sampleEri sampleZero 1 1
          sampleShlsAll0 sampleAoLoc sampleTao sampleZero 1 0) :=
  ⟨rfl,
   (rha_diagonal_full_weight sampleEri sampleEri sampleZero 1 1 sampleShlsAll0
     sampleAoLoc sampleTao sampleZero 1 0 rfl).1⟩

/- ------------------------------------------------------------ -/
/- Claim C8: per-component independence of the kernels.          -/

lemma ite_term_congr {P : Prop} [Decidable P] {x y : ℤ} (h : P → x = y) :
    (if P then x else 0) = (if P then y else 0) := by
  split_ifs with hp
  · exact h hp
  · rfl

/-- C8: each kernel processes the `ncomp` integral components
independently: component `ic` reads only the `ic`-th sub-block of each
half of the integral buffer (the buffer advances by `di*dj*dk*dl` per
component) and accumulates only into the `ic`-th `nao*nao` output matrix,
so the output matrix of one component never depends on another component's
integral sub-block.  Stated for the two cited kernels: if two integral
buffers agree on component `ic`'s sub-blocks, the `ic`-th output slices
coincide. -/
theorem rha_component_independence
    (dm vjk : ℕ → ℤ) (nao ncomp : ℕ) (shls ao_loc : ℕ → ℕ) (tao : ℕ → ℤ)
    (dm_cond : ℕ → ℤ) (nbas : ℕ) (dm_atleast : ℤ)
    (istart iend jstart jend kstart kend lstart lend di dj dk dl : ℕ)
    (his : istart = ao_loc (shls 0)) (hie : iend = ao_loc (shls 0 + 1))
    (hjs : jstart = ao_loc (shls 1)) (hje : jend = ao_loc (shls 1 + 1))
    (hks : kstart = ao_loc (shls 2)) (hke : kend = ao_loc (shls 2 + 1))
    (hls : lstart = ao_loc (shls 3)) (hle : lend = ao_loc (shls 3 + 1))
    (hdi : di = iend - istart) (hdj : dj = jend - jstart)
    (hdk : dk = kend - kstart) (hdl : dl = lend - lstart)
    (hkl : shls 3 < shls 2) (hien : iend ≤ nao) (hjen : jend ≤ nao)
    (hken : kend ≤ nao) (hlen : lend ≤ nao)
    (htao : ∀ p, p < nao → taoIdx tao p < nao) :
    ∀ ic, ic < ncomp →
    ∀ eri eri' out out',
      (∀ r, r < di * dj * dk * dl →
        eri (ic * (di * dj * dk * dl) + r) = eri' (ic * (di * dj * dk * dl) + r)) →
      (∀ r, r < di * dj * dk * dl →
        eri (ncomp * (di * dj * dk * dl) + ic * (di * dj * dk * dl) + r)
          = eri' (ncomp * (di * dj * dk * dl) + ic * (di * dj * dk * dl) + r)) →
      (CVHFrha2kl_lk_s1ij eri dm vjk nao ncomp shls ao_loc tao dm_cond nbas
          dm_atleast = some out →
        CVHFrha2kl_lk_s1ij eri' dm vjk nao ncomp shls ao_loc tao dm_cond nbas
          dm_atleast = some out' →
        ∀ r, r < nao * nao →
          out (ic * (nao * nao) + r) = out' (ic * (nao * nao) + r))
      ∧ (CVHFrha2kl_jk_s1il eri dm vjk nao ncomp shls ao_loc tao dm_cond nbas
          dm_atleast = some out →
        CVHFrha2kl_jk_s1il eri' dm vjk nao ncomp shls ao_loc tao dm_cond nbas
          dm_atleast = some out' →
        ∀ r, r < nao * nao →
          out (ic * (nao * nao) + r) = out' (ic * (nao * nao) + r)) := by
  intro ic hic eri eri' out out' hagA hagB
  have hsle : shls 3 ≤ shls 2 := by omega
  have hsne : ¬ shls 2 = shls 3 := by omega
  have hBe : (di * dj) * (dk * dl) = di * dj * dk * dl := by ring
  constructor
  · intro h1 h2 r hr
    simp only [CVHFrha2kl_lk_s1ij, if_pos hsle, if_neg hsne,
      Option.some.injEq] at h1 h2
    rw [← his, ← hie, ← hjs, ← hje, ← hks, ← hke, ← hls, ← hle,
      ← hdi, ← hdj, ← hdk, ← hdl] at h1 h2
    subst h1
    subst h2
    rw [lk_loop_apply, lk_loop_apply]
    simp only [Nat.zero_add]
    congr 1
    apply Finset.sum_congr rfl
    intro ic2 _
    apply Finset.sum_congr rfl
    intro i1 hi1m
    apply Finset.sum_congr rfl
    intro j1 hj1m
    apply ite_term_congr
    intro hcond
    have hi1r := Finset.mem_range.mp hi1m
    have hj1r := Finset.mem_range.mp hj1m
    have hposlt : (istart + i1) * nao + (jstart + j1) < nao * nao :=
      mul_add_lt (show jstart + j1 < nao by omega)
        (show istart + i1 < nao by omega)
    obtain ⟨hiceq, -⟩ := rowcol_inj hposlt hr hcond
    subst ic2
    have hrr : j1 * (iend - istart) + i1 < di * dj := by
      have h0 := mul_add_lt hi1r hj1r
      have h1 : (jend - jstart) * (iend - istart) = di * dj := by
        rw [hdi, hdj]; ring
      omega
    simp only [zgemvN, if_pos hrr, viewAt, NPzset0]
    congr 1
    congr 1
    apply Finset.sum_congr rfl
    intro c hc
    have hcr := Finset.mem_range.mp hc
    have hbound : c * (di * dj) + (j1 * (iend - istart) + i1)
        < di * dj * dk * dl := by
      have h0 := mul_add_lt hrr hcr
      have h1 : (dk * dl) * (di * dj) = di * dj * dk * dl := by ring
      omega
    have harg : ic * ((di * dj) * (dk * dl))
          + (c * (di * dj) + (j1 * (iend - istart) + i1))
        = ic * (di * dj * dk * dl)
          + (c * (di * dj) + (j1 * (iend - istart) + i1)) := by
      rw [hBe]
    rw [harg, hagA (c * (di * dj) + (j1 * (iend - istart) + i1)) hbound]
  · intro h1 h2 r hr
    simp only [CVHFrha2kl_jk_s1il, if_pos hsle, if_neg hsne,
      Option.some.injEq] at h1 h2
    rw [← his, ← hie, ← hjs, ← hje, ← hks, ← hke, ← hls, ← hle,
      ← hdi, ← hdj, ← hdk, ← hdl] at h1 h2
    subst h1
    subst h2
    rw [jk_extra_loop_apply, jk_extra_loop_apply]
    simp only [CVHFrs1_jk_s1il]
    rw [← his, ← hie, ← hjs, ← hje, ← hks, ← hke, ← hls, ← hle,
      ← hdi, ← hdj, ← hdk, ← hdl]
    rw [jk_rs_loop_apply, jk_rs_loop_apply]
    simp only [Nat.zero_add]
    congr 1
    · congr 1
      apply Finset.sum_congr rfl
      intro ic2 _
      apply Finset.sum_congr rfl
      intro i1 hi1m
      apply Finset.sum_congr rfl
      intro l1 hl1m
      apply ite_term_congr
      intro hcond
      have hi1r := Finset.mem_range.mp hi1m
      have hl1r := Finset.mem_range.mp hl1m
      have hposlt : (istart + i1) * nao + (lstart + l1) < nao * nao :=
        mul_add_lt (show lstart + l1 < nao by
          have : dl = lend - lstart := hdl; omega)
          (show istart + i1 < nao by
            have : di = iend - istart := hdi; omega)
      obtain ⟨hiceq, -⟩ := rowcol_inj hposlt hr hcond
      subst ic2
      apply Finset.sum_congr rfl
      intro j1 hj1m
      apply Finset.sum_congr rfl
      intro k1 hk1m
      have hidx := eriIdx_lt (Finset.mem_range.mp hi1m)
        (Finset.mem_range.mp hj1m) (Finset.mem_range.mp hk1m)
        (Finset.mem_range.mp hl1m)
      have hbound : eriIdx di dj dk i1 j1 k1 l1 < di * dj * dk * dl := by
        omega
      have harg : ic * ((di * dj) * (dk * dl)) + eriIdx di dj dk i1 j1 k1 l1
          = ic * (di * dj * dk * dl) + eriIdx di dj dk i1 j1 k1 l1 := by
        rw [hBe]
      rw [harg, hagA (eriIdx di dj dk i1 j1 k1 l1) hbound]
    · apply Finset.sum_congr rfl
      intro ic2 _
      apply Finset.sum_congr rfl
      intro i1 hi1m
      apply Finset.sum_congr rfl
      intro k1 hk1m
      apply ite_term_congr
      intro hcond
      have hi1r := Finset.mem_range.mp hi1m
      have hk1r := Finset.mem_range.mp hk1m
      have hposlt : (istart + i1) * nao + taoIdx tao (kstart + k1)
          < nao * nao :=
        mul_add_lt (htao (kstart + k1) (by omega))
          (show istart + i1 < nao by omega)
      obtain ⟨hiceq, -⟩ := rowcol_inj hposlt hr hcond
      subst ic2
      congr 1
      have hrr : k1 * di + i1 < di * dk := by
        have h0 := mul_add_lt hi1r hk1r
        have h1 : dk * di = di * dk := by ring
        omega
      simp only [zgemvN, if_pos hrr, viewAt, NPzset0]
      congr 1
      congr 1
      apply Finset.sum_congr rfl
      intro c hc
      have hcr := Finset.mem_range.mp hc
      have hbound : c * (di * dk) + (k1 * di + i1)
          < di * dj * dk * dl := by
        have h0 := mul_add_lt hrr hcr
        have h1 : (dj * dl) * (di * dk) = di * dj * dk * dl := by ring
        omega
      have harg : (di * dk) * (dj * dl) * ncomp + ic * ((di * dk) * (dj * dl))
            + (c * (di * dk) + (k1 * di + i1))
          = ncomp * (di * dj * dk * dl) + ic * (di * dj * dk * dl)
            + (c * (di * dk) + (k1 * di + i1)) := by
        ring
      rw [harg, hagB (c * (di * dk) + (k1 * di + i1)) hbound]

/-- Second sample integral buffer: agrees with `sampleEri` on the
component-0 sub-blocks of a one-AO-per-shell quadruplet and differs
beyond them. -/
def sampleEri2 : ℕ → ℤ := fun t => if t < 2 then 1 else 5

/-- Witness for C8 at a concrete quadruplet: two integral buffers agreeing
on component 0's sub-blocks give the same component-0 output slice. -/
theorem rha_component_independence_witness :
    (sampleShlsKL 3 < sampleShlsKL 2)
    ∧ (∀ out out',
        CVHFrha2kl_lk_s1ij sampleEri sampleDm sampleZero 2 1 sampleShlsKL
          sampleAoLoc sampleTao sampleZero 2 0 = some out →
        CVHFrha2kl_lk_s1ij sampleEri2 sampleDm sampleZero 2 1 sampleShlsKL
          sampleAoLoc sampleTao sampleZero 2 0 = some out' →
        ∀ r, r < 2 * 2 →
          out (0 * (2 * 2) + r) = out' (0 * (2 * 2) + r)) := by
  constructor
  · decide
  · intro out out' h1 h2
    exact (rha_component_independence sampleDm sampleZero 2 1 sampleShlsKL
      sampleAoLoc sampleTao sampleZero 2 0
      0 1 0 1 1 2 0 1 1 1 1 1
      rfl rfl rfl rfl rfl rfl rfl rfl rfl rfl rfl rfl
      (by decide) (by decide) (by decide) (by decide) (by decide)
      (by intro p hp; simp only [sampleTao, taoIdx]; omega)
      0 (by decide) sampleEri sampleEri2 out out'
      (by intro r hr
          have hr0 : r = 0 := by omega
          subst hr0
          decide)
      (by intro r hr
          have hr0 : r = 0 := by omega
          subst hr0
          decide)).1 h1 h2

/- ------------------------------------------------------------------ -/
/- Claim C1: one symmetry-reduced call covers both (k,l) orderings.    -/

lemma pos_of_lt_mul {c A B : ℕ} (h : c < A * B) : 0 < A ∧ 0 < B := by
  rcases Nat.eq_zero_or_pos A with hA | hA
  · rw [hA, Nat.zero_mul] at h; omega
  · rcases Nat.eq_zero_or_pos B with hB | hB
    · rw [hB, Nat.mul_zero] at h; omega
    · exact ⟨hA, hB⟩

lemma trev_reindex
    (eri eri2 dm : ℕ → ℤ) (tao : ℕ → ℤ) (nao : ℕ)
    (kstart kend lstart lend ks2 ke2 ls2 le2 off off2 dij rr : ℕ)
    (hdk2 : ke2 - ks2 = lend - lstart) (hdl2 : le2 - ls2 = kend - kstart)
    (htau2 : ∀ p, taoIdx tao (taoIdx tao p) = p)
    (hbwdK2 : ∀ u, ks2 ≤ u → u < ke2 →
      lstart ≤ taoIdx tao u ∧ taoIdx tao u < lend)
    (hbwdL2 : ∀ u, ls2 ≤ u → u < le2 →
      kstart ≤ taoIdx tao u ∧ taoIdx tao u < kend)
    (hfwdK : ∀ u, kstart ≤ u → u < kend →
      ls2 ≤ taoIdx tao u ∧ taoIdx tao u < le2)
    (hfwdL : ∀ u, lstart ≤ u → u < lend →
      ks2 ≤ taoIdx tao u ∧ taoIdx tao u < ke2)
    (hrel : ∀ k l, kstart ≤ k → k < kend → lstart ≤ l → l < lend →
      eri2 (off2 + (((taoIdx tao l - ks2)
            + (ke2 - ks2) * (taoIdx tao k - ls2)) * dij + rr))
        = - (taoSgn tao k * taoSgn tao l
            * eri (off + (((k - kstart)
                + (kend - kstart) * (l - lstart)) * dij + rr)))) :
    ∑ c2 ∈ Finset.range ((ke2 - ks2) * (le2 - ls2)),
        eri2 (off2 + (c2 * dij + rr)) * dmblock dm ls2 le2 ks2 ke2 nao c2
      = - ∑ c ∈ Finset.range ((kend - kstart) * (lend - lstart)),
          eri (off + (c * dij + rr))
            * (taoSgn tao (lstart + c / (kend - kstart))
              * taoSgn tao (kstart + c % (kend - kstart))
              * dm (taoIdx tao (kstart + c % (kend - kstart)) * nao
                    + taoIdx tao (lstart + c / (kend - kstart)))) := by
  rw [← Finset.sum_neg_distrib]
  refine Finset.sum_nbij'
    (fun c2 => (taoIdx tao (ks2 + c2 % (ke2 - ks2)) - lstart) * (kend - kstart)
      + (taoIdx tao (ls2 + c2 / (ke2 - ks2)) - kstart))
    (fun c => (taoIdx tao (kstart + c % (kend - kstart)) - ls2) * (ke2 - ks2)
      + (taoIdx tao (lstart + c / (kend - kstart)) - ks2))
    ?_ ?_ ?_ ?_ ?_
  · intro c2 hc2m
    dsimp only
    have hc2 := Finset.mem_range.mp hc2m
    obtain ⟨hD, hE⟩ := pos_of_lt_mul hc2
    have hq : c2 / (ke2 - ks2) < le2 - ls2 := by
      rw [Nat.div_lt_iff_lt_mul hD]
      have e : (le2 - ls2) * (ke2 - ks2) = (ke2 - ks2) * (le2 - ls2) := by
        ring
      omega
    have hp : c2 % (ke2 - ks2) < ke2 - ks2 := Nat.mod_lt _ hD
    generalize hqg : c2 / (ke2 - ks2) = q at *
    generalize hpg : c2 % (ke2 - ks2) = p at *
    have hk := hbwdL2 (ls2 + q) (by omega) (by omega)
    have hl := hbwdK2 (ks2 + p) (by omega) (by omega)
    apply Finset.mem_range.mpr
    have h0 := mul_add_lt
      (show taoIdx tao (ls2 + q) - kstart < kend - kstart by omega)
      (show taoIdx tao (ks2 + p) - lstart < lend - lstart by omega)
    have e : (lend - lstart) * (kend - kstart)
        = (kend - kstart) * (lend - lstart) := by ring
    omega
  · intro c hcm
    dsimp only
    have hc := Finset.mem_range.mp hcm
    obtain ⟨hD, hE⟩ := pos_of_lt_mul hc
    have hq : c / (kend - kstart) < lend - lstart := by
      rw [Nat.div_lt_iff_lt_mul hD]
      have e : (lend - lstart) * (kend - kstart)
          = (kend - kstart) * (lend - lstart) := by ring
      omega
    have hp : c % (kend - kstart) < kend - kstart := Nat.mod_lt _ hD
    generalize hqg : c / (kend - kstart) = q at *
    generalize hpg : c % (kend - kstart) = p at *
    have hk := hfwdK (kstart + p) (by omega) (by omega)
    have hl := hfwdL (lstart + q) (by omega) (by omega)
    apply Finset.mem_range.mpr
    have h0 := mul_add_lt
      (show taoIdx tao (lstart + q) - ks2 < ke2 - ks2 by omega)
      (show taoIdx tao (kstart + p) - ls2 < le2 - ls2 by omega)
    have e : (le2 - ls2) * (ke2 - ks2) = (ke2 - ks2) * (le2 - ls2) := by ring
    omega
  · intro c2 hc2m
    dsimp only
    have hc2 := Finset.mem_range.mp hc2m
    obtain ⟨hD, hE⟩ := pos_of_lt_mul hc2
    have hq : c2 / (ke2 - ks2) < le2 - ls2 := by
      rw [Nat.div_lt_iff_lt_mul hD]
      have e : (le2 - ls2) * (ke2 - ks2) = (ke2 - ks2) * (le2 - ls2) := by
        ring
      omega
    have hp : c2 % (ke2 - ks2) < ke2 - ks2 := Nat.mod_lt _ hD
    have h5 := Nat.div_add_mod c2 (ke2 - ks2)
    generalize hqg : c2 / (ke2 - ks2) = q at *
    generalize hpg : c2 % (ke2 - ks2) = p at *
    have hk := hbwdL2 (ls2 + q) (by omega) (by omega)
    have hl := hbwdK2 (ks2 + p) (by omega) (by omega)
    have hK1 : taoIdx tao (ls2 + q) - kstart < kend - kstart := by omega
    rw [decomp_mod _ _ hK1, decomp_div _ _ hK1]
    have e1 : kstart + (taoIdx tao (ls2 + q) - kstart)
        = taoIdx tao (ls2 + q) := by omega
    have e2 : lstart + (taoIdx tao (ks2 + p) - lstart)
        = taoIdx tao (ks2 + p) := by omega
    rw [e1, e2, htau2 (ls2 + q), htau2 (ks2 + p)]
    have e3 : ls2 + q - ls2 = q := by omega
    have e4 : ks2 + p - ks2 = p := by omega
    rw [e3, e4]
    have e6 : q * (ke2 - ks2) = (ke2 - ks2) * q := by ring
    omega
  · intro c hcm
    dsimp only
    have hc := Finset.mem_range.mp hcm
    obtain ⟨hD, hE⟩ := pos_of_lt_mul hc
    have hq : c / (kend - kstart) < lend - lstart := by
      rw [Nat.div_lt_iff_lt_mul hD]
      have e : (lend - lstart) * (kend - kstart)
          = (kend - kstart) * (lend - lstart) := by ring
      omega
    have hp : c % (kend - kstart) < kend - kstart := Nat.mod_lt _ hD
    have h5 := Nat.div_add_mod c (kend - kstart)
    generalize hqg : c / (kend - kstart) = q at *
    generalize hpg : c % (kend - kstart) = p at *
    have hk := hfwdK (kstart + p) (by omega) (by omega)
    have hl := hfwdL (lstart + q) (by omega) (by omega)
    have hP1 : taoIdx tao (lstart + q) - ks2 < ke2 - ks2 := by omega
    rw [decomp_mod _ _ hP1, decomp_div _ _ hP1]
    have e1 : ks2 + (taoIdx tao (lstart + q) - ks2)
        = taoIdx tao (lstart + q) := by omega
    have e2 : ls2 + (taoIdx tao (kstart + p) - ls2)
        = taoIdx tao (kstart + p) := by omega
    rw [e1, e2, htau2 (lstart + q), htau2 (kstart + p)]
    have e3 : lstart + q - lstart = q := by omega
    have e4 : kstart + p - kstart = p := by omega
    rw [e3, e4]
    have e6 : q * (kend - kstart) = (kend - kstart) * q := by ring
    omega
  · intro c2 hc2m
    dsimp only
    simp only [dmblock]
    have hc2 := Finset.mem_range.mp hc2m
    obtain ⟨hD, hE⟩ := pos_of_lt_mul hc2
    have hq : c2 / (ke2 - ks2) < le2 - ls2 := by
      rw [Nat.div_lt_iff_lt_mul hD]
      have e : (le2 - ls2) * (ke2 - ks2) = (ke2 - ks2) * (le2 - ls2) := by
        ring
      omega
    have hp : c2 % (ke2 - ks2) < ke2 - ks2 := Nat.mod_lt _ hD
    have h5 := Nat.div_add_mod c2 (ke2 - ks2)
    generalize hqg : c2 / (ke2 - ks2) = q at *
    generalize hpg : c2 % (ke2 - ks2) = p at *
    have hk := hbwdL2 (ls2 + q) (by omega) (by omega)
    have hl := hbwdK2 (ks2 + p) (by omega) (by omega)
    have hK1 : taoIdx tao (ls2 + q) - kstart < kend - kstart := by omega
    rw [decomp_div _ _ hK1, decomp_mod _ _ hK1]
    have e1 : kstart + (taoIdx tao (ls2 + q) - kstart)
        = taoIdx tao (ls2 + q) := by omega
    have e2 : lstart + (taoIdx tao (ks2 + p) - lstart)
        = taoIdx tao (ks2 + p) := by omega
    rw [e1, e2, htau2 (ls2 + q), htau2 (ks2 + p)]
    have hr2 := hrel (taoIdx tao (ls2 + q)) (taoIdx tao (ks2 + p))
      hk.1 hk.2 hl.1 hl.2
    rw [htau2 (ks2 + p), htau2 (ls2 + q)] at hr2
    have e3 : ks2 + p - ks2 = p := by omega
    have e4 : ls2 + q - ls2 = q := by omega
    rw [e3, e4] at hr2
    have e5 : p + (ke2 - ks2) * q = c2 := by omega
    rw [e5] at hr2
    have e6 : (taoIdx tao (ks2 + p) - lstart) * (kend - kstart)
          + (taoIdx tao (ls2 + q) - kstart)
        = (taoIdx tao (ls2 + q) - kstart)
          + (kend - kstart) * (taoIdx tao (ks2 + p) - lstart) := by ring
    rw [e6, hr2]
    ring

lemma ijminus_split (dm : ℕ → ℤ) (tao : ℕ → ℤ) (is0 ie0 js0 je0 nao c : ℕ) :
    CVHFtimerev_ijminus dm tao is0 ie0 js0 je0 nao c
      = dmblock dm is0 ie0 js0 je0 nao c
        - taoSgn tao (is0 + c / (je0 - js0))
          * taoSgn tao (js0 + c % (je0 - js0))
          * dm (taoIdx tao (js0 + c % (je0 - js0)) * nao
                + taoIdx tao (is0 + c / (je0 - js0))) := rfl

/-- C1: for a shell quadruplet with `shls[2] > shls[3]`, one call to the
symmetry-reduced kernel `CVHFrha2kl_lk_s1ij` accumulates into `vj` the same
total contribution as the no-symmetry kernel `CVHFrs1_lk_s1ij` evaluated on
both the `(k,l)` ordering and its time-reversal-related `(l,k)` ordering
(the quadruplet `shls2` whose `k`/`l` AO ranges are the `tao`-images of the
original `l`/`k` ranges, with the integral block `eri2` related to `eri` by
the hermitian-e1/anti-hermitian-e2 time-reversal rule `herirel`): a single
canonical evaluation covers both orderings. -/
theorem rha2kl_lk_covers_both_orderings
    (eri eri2 dm vj : ℕ → ℤ) (nao ncomp : ℕ) (shls shls2 ao_loc : ℕ → ℕ)
    (tao : ℕ → ℤ) (dm_cond : ℕ → ℤ) (nbas : ℕ) (dm_atleast : ℤ)
    (istart iend jstart jend kstart kend lstart lend ks2 ke2 ls2 le2 : ℕ)
    (his : istart = ao_loc (shls 0)) (hie : iend = ao_loc (shls 0 + 1))
    (hjs : jstart = ao_loc (shls 1)) (hje : jend = ao_loc (shls 1 + 1))
    (hks : kstart = ao_loc (shls 2)) (hke : kend = ao_loc (shls 2 + 1))
    (hls : lstart = ao_loc (shls 3)) (hle : lend = ao_loc (shls 3 + 1))
    (hks2 : ks2 = ao_loc (shls2 2)) (hke2 : ke2 = ao_loc (shls2 2 + 1))
    (hls2 : ls2 = ao_loc (shls2 3)) (hle2 : le2 = ao_loc (shls2 3 + 1))
    (hsh0 : shls2 0 = shls 0) (hsh1 : shls2 1 = shls 1)
    (hkl : shls 3 < shls 2)
    (hdk2 : ke2 - ks2 = lend - lstart) (hdl2 : le2 - ls2 = kend - kstart)
    (htau2 : ∀ p, taoIdx tao (taoIdx tao p) = p)
    (hbwdK2 : ∀ u, ks2 ≤ u → u < ke2 →
      lstart ≤ taoIdx tao u ∧ taoIdx tao u < lend)
    (hbwdL2 : ∀ u, ls2 ≤ u → u < le2 →
      kstart ≤ taoIdx tao u ∧ taoIdx tao u < kend)
    (hfwdK : ∀ u, kstart ≤ u → u < kend →
      ls2 ≤ taoIdx tao u ∧ taoIdx tao u < le2)
    (hfwdL : ∀ u, lstart ≤ u → u < lend →
      ks2 ≤ taoIdx tao u ∧ taoIdx tao u < ke2)
    (herirel : ∀ ic r k l, ic < ncomp →
      r < (iend - istart) * (jend - jstart) →
      kstart ≤ k → k < kend → lstart ≤ l → l < lend →
      eri2 (ic * (((iend - istart) * (jend - jstart))
              * ((ke2 - ks2) * (le2 - ls2)))
          + (((taoIdx tao l - ks2) + (ke2 - ks2) * (taoIdx tao k - ls2))
              * ((iend - istart) * (jend - jstart)) + r))
        = - (taoSgn tao k * taoSgn tao l
            * eri (ic * (((iend - istart) * (jend - jstart))
                    * ((kend - kstart) * (lend - lstart)))
                + (((k - kstart) + (kend - kstart) * (l - lstart))
                    * ((iend - istart) * (jend - jstart)) + r)))) :
    CVHFrha2kl_lk_s1ij eri dm vj nao ncomp shls ao_loc tao dm_cond nbas
        dm_atleast
      = some (CVHFrs1_lk_s1ij eri2 dm
          (CVHFrs1_lk_s1ij eri dm vj nao ncomp shls ao_loc tao dm_cond nbas
            dm_atleast)
          nao ncomp shls2 ao_loc tao dm_cond nbas dm_atleast) := by
  have hsle : shls 3 ≤ shls 2 := by omega
  have hsne : ¬ shls 2 = shls 3 := by omega
  unfold CVHFrha2kl_lk_s1ij CVHFrs1_lk_s1ij
  rw [if_pos hsle, if_neg hsne]
  dsimp only
  rw [hsh0, hsh1]
  rw [← his, ← hie, ← hjs, ← hje, ← hks, ← hke, ← hls, ← hle, ← hks2, ← hke2,
    ← hls2, ← hle2]
  congr 1
  funext t
  rw [lk_loop_apply, lk_loop_apply, lk_loop_apply]
  simp only [Nat.zero_add]
  rw [add_assoc]
  congr 1
  rw [← Finset.sum_add_distrib]
  apply Finset.sum_congr rfl
  intro ic2 hic2m
  rw [← Finset.sum_add_distrib]
  apply Finset.sum_congr rfl
  intro i1 hi1m
  rw [← Finset.sum_add_distrib]
  apply Finset.sum_congr rfl
  intro j1 hj1m
  have hi1r := Finset.mem_range.mp hi1m
  have hj1r := Finset.mem_range.mp hj1m
  by_cases hcond :
      ic2 * (nao * nao) + ((istart + i1) * nao + (jstart + j1)) = t
  · rw [if_pos hcond, if_pos hcond, if_pos hcond]
    have hrr : j1 * (iend - istart) + i1
        < (iend - istart) * (jend - jstart) := by
      have h0 := mul_add_lt hi1r hj1r
      have e : (jend - jstart) * (iend - istart)
          = (iend - istart) * (jend - jstart) := by ring
      omega
    simp only [zgemvN, if_pos hrr, viewAt, NPzset0, zero_mul, zero_add,
      one_mul]
    simp only [ijminus_split, mul_sub]
    rw [Finset.sum_sub_distrib]
    have hre := trev_reindex eri eri2 dm tao nao kstart kend lstart lend
      ks2 ke2 ls2 le2
      (ic2 * (((iend - istart) * (jend - jstart))
        * ((kend - kstart) * (lend - lstart))))
      (ic2 * (((iend - istart) * (jend - jstart))
        * ((ke2 - ks2) * (le2 - ls2))))
      ((iend - istart) * (jend - jstart)) (j1 * (iend - istart) + i1)
      hdk2 hdl2 htau2 hbwdK2 hbwdL2 hfwdK hfwdL
      (fun k l hk1 hk2 hl1 hl2 =>
        herirel ic2 (j1 * (iend - istart) + i1) k l
          (Finset.mem_range.mp hic2m) hrr hk1 hk2 hl1 hl2)
    rw [hre]
    ring
  · rw [if_neg hcond, if_neg hcond, if_neg hcond]
    norm_num

def sampleEriNeg : ℕ → ℤ := fun _ => -1

theorem rha2kl_lk_covers_both_orderings_witness :
    CVHFrha2kl_lk_s1ij sampleEri sampleDm sampleZero 2 1 sampleShlsKL
        sampleAoLoc sampleTao sampleZero 2 0
      = some (CVHFrs1_lk_s1ij sampleEriNeg sampleDm
          (CVHFrs1_lk_s1ij sampleEri sampleDm sampleZero 2 1 sampleShlsKL
            sampleAoLoc sampleTao sampleZero 2 0)
          2 1 sampleShlsBad sampleAoLoc sampleTao sampleZero 2 0) :=
  rha2kl_lk_covers_both_orderings sampleEri sampleEriNeg sampleDm sampleZero
    2 1 sampleShlsKL sampleShlsBad sampleAoLoc sampleTao sampleZero 2 0
    0 1 0 1 1 2 0 1 0 1 1 2
    (by decide) (by decide) (by decide) (by decide) (by decide) (by decide)
    (by decide) (by decide) (by decide) (by decide) (by decide) (by decide)
    (by decide) (by decide) (by decide) (by decide) (by decide)
    (by intro p; simp only [taoIdx, sampleTao]; omega)
    (by intro u h1 h2; have hu : u = 0 := (by omega); subst hu; decide)
    (by intro u h1 h2; have hu : u = 1 := (by omega); subst hu; decide)
    (by intro u h1 h2; have hu : u = 1 := (by omega); subst hu; decide)
    (by intro u h1 h2; have hu : u = 0 := (by omega); subst hu; decide)
    (by
      intro ic r k l h1 h2 h3 h4 h5 h6
      have hic : ic = 0 := by omega
      have hr : r = 0 := by simp at h2; omega
      have hk : k = 1 := by omega
      have hl : l = 0 := by omega
      subst hic; subst hr; subst hk; subst hl
      decide)
